import Mathlib

/-!
# Streaming descriptive statistics: the accumulator and its combine operation

A shallow embedding of `stats::StatisticsAccumulator`
(`src/lib/StatisticsAccumulator.cpp`), of the test loops of
`tst/StatisticsAccumulatorTest.cpp` and of the fold of
`examples/ParallelStatistics.hpp`.

Modelling decisions.

* The floating-point fields (`float`, `double`) are rational numbers: the
  arithmetic is exact, so the casts between `float` and `double` are the
  identity and only finite values occur.
* `count_` is a `std::size_t`.  It is a natural number and every `++`/`+` on it
  is taken modulo `SIZE_MODULUS` (64-bit `size_t`).  Exact arithmetic includes the
  count: the statements carry the hypothesis that the counts involved stay below
  `SIZE_MODULUS`, so that no wrap-around occurs.
* Where the count wraps to 0 the code divides by zero.  The rational model of a
  state cannot hold the result, so the value of `moment2_` is then computed a second
  time in `Extended`, the values of `double` with the infinities and not-a-number.
* `stats::undefined()` (declared in `stats/StatisticsUtilities.hpp`) is the
  absent result `none` of a query.
* `sqrt` and `pow` are the real square root and the real power; the three
  queries that call them return real numbers.
-/

namespace stats

/-- Number of values of a 64-bit `std::size_t`; unsigned arithmetic wraps modulo it. -/
def SIZE_MODULUS : Nat := 2 ^ 64

/-- The constant `std::numeric_limits<float>::max()`, that is `(2 - 2^-23) * 2^127`. -/
def FLT_MAX : ℚ := 2 ^ 128 - 2 ^ 104

/-- The private state of `class StatisticsAccumulator`. -/
structure StatisticsAccumulator where
  count_ : Nat
  minimum_ : ℚ
  maximum_ : ℚ
  moment1_ : ℚ
  abs_moment1_ : ℚ
  moment2_ : ℚ
  moment3_ : ℚ
  moment4_ : ℚ
  deriving DecidableEq

namespace StatisticsAccumulator

/-- The default constructor `StatisticsAccumulator::StatisticsAccumulator()`. -/
def empty : StatisticsAccumulator :=
  { count_ := 0
    minimum_ := FLT_MAX
    maximum_ := -FLT_MAX
    moment1_ := 0
    abs_moment1_ := 0
    moment2_ := 0
    moment3_ := 0
    moment4_ := 0 }

/-- The member `void StatisticsAccumulator::add(const float& value)`: the state after the call. -/
def add (a : StatisticsAccumulator) (value : ℚ) : StatisticsAccumulator :=
  let count_ : Nat := (a.count_ + 1) % SIZE_MODULUS
  let minimum_ : ℚ := min value a.minimum_
  let maximum_ : ℚ := max value a.maximum_
  let dval : ℚ := value
  let nvals : ℚ := (count_ : ℚ)
  let delta : ℚ := dval - a.moment1_
  let delta_n : ℚ := delta / nvals
  let delta_n2 : ℚ := delta_n * delta_n
  let term1 : ℚ := delta * delta_n * (nvals - 1)
  let moment1_ : ℚ := a.moment1_ + delta_n
  let abs_moment1_ : ℚ := a.abs_moment1_ + (|dval| - a.abs_moment1_) / nvals
  let moment4_ : ℚ := a.moment4_ +
    (term1 * delta_n2 * (nvals * nvals - 3 * nvals + 3) + 6 * delta_n2 * a.moment2_ -
      4 * delta_n * a.moment3_)
  let moment3_ : ℚ := a.moment3_ + (term1 * delta_n * (nvals - 2) - 3 * delta_n * a.moment2_)
  let moment2_ : ℚ := a.moment2_ + term1
  { count_ := count_
    minimum_ := minimum_
    maximum_ := maximum_
    moment1_ := moment1_
    abs_moment1_ := abs_moment1_
    moment2_ := moment2_
    moment3_ := moment3_
    moment4_ := moment4_ }

/-- The query `count()`. -/
def count (a : StatisticsAccumulator) : Nat :=
  a.count_

/-- The query `minimum()`. -/
def minimum (a : StatisticsAccumulator) : Option ℚ :=
  if a.count_ = 0 then none else some a.minimum_

/-- The query `maximum()`. -/
def maximum (a : StatisticsAccumulator) : Option ℚ :=
  if a.count_ = 0 then none else some a.maximum_

/-- The query `mean()`. -/
def mean (a : StatisticsAccumulator) : Option ℚ :=
  if a.count_ = 0 then none else some a.moment1_

/-- The query `absolute_mean()`. -/
def absolute_mean (a : StatisticsAccumulator) : Option ℚ :=
  if a.count_ = 0 then none else some a.abs_moment1_

/-- The query `quadratic_mean()`. -/
noncomputable def quadratic_mean (a : StatisticsAccumulator) : Option ℝ :=
  if a.count_ = 0 then none
  else
    let mean2 : ℚ := a.moment1_ * a.moment1_
    let nvals : ℚ := (a.count_ : ℚ)
    let sd2 : ℚ := a.moment2_ / nvals
    let rms2 : ℚ := mean2 + sd2
    let rms : ℝ := Real.sqrt (rms2 : ℝ)
    some rms

/-- The query `standard_deviation()`. -/
noncomputable def standard_deviation (a : StatisticsAccumulator) : Option ℝ :=
  if a.count_ = 0 then none
  else
    let nvals : ℚ := (a.count_ : ℚ)
    let std_dev : ℝ := Real.sqrt ((a.moment2_ / nvals : ℚ) : ℝ)
    some std_dev

/-- The query `skewness()`. -/
noncomputable def skewness (a : StatisticsAccumulator) : Option ℝ :=
  if a.count_ = 0 then none
  else if a.moment2_ = 0 then none
  else
    let nvals : ℚ := (a.count_ : ℚ)
    let skew : ℝ := (Real.sqrt (nvals : ℝ) * (a.moment3_ : ℝ)) / ((a.moment2_ : ℝ) ^ (1.5 : ℝ))
    some skew

/-- The query `kurtosis()`. -/
def kurtosis (a : StatisticsAccumulator) : Option ℚ :=
  if a.count_ = 0 then none
  else if a.moment2_ = 0 then none
  else
    let nvals : ℚ := (a.count_ : ℚ)
    let kurt : ℚ := (nvals * a.moment4_) / (a.moment2_ * a.moment2_) - 3
    some kurt

/-- The member `operator+`: `this_ + that`. -/
def operator_plus (this_ that : StatisticsAccumulator) : StatisticsAccumulator :=
  if this_.count_ = 0 then that
  else if that.count_ = 0 then this_
  else
    let a_n : ℚ := (this_.count_ : ℚ)
    let b_n : ℚ := (that.count_ : ℚ)
    let c_n : ℚ := (((this_.count_ + that.count_) % SIZE_MODULUS : Nat) : ℚ)
    let a_m1 := this_.moment1_
    let a_abs_m1 := this_.abs_moment1_
    let a_m2 := this_.moment2_
    let a_m3 := this_.moment3_
    let a_m4 := this_.moment4_
    let b_m1 := that.moment1_
    let b_abs_m1 := that.abs_moment1_
    let b_m2 := that.moment2_
    let b_m3 := that.moment3_
    let b_m4 := that.moment4_
    let delta : ℚ := b_m1 - a_m1
    let delta2 : ℚ := delta * delta
    let delta3 : ℚ := delta * delta2
    let delta4 : ℚ := delta2 * delta2
    { count_ := (this_.count_ + that.count_) % SIZE_MODULUS
      minimum_ := min this_.minimum_ that.minimum_
      maximum_ := max this_.maximum_ that.maximum_
      moment1_ := (a_n * a_m1 + b_n * b_m1) / c_n
      abs_moment1_ := (a_n * a_abs_m1 + b_n * b_abs_m1) / c_n
      moment2_ := a_m2 + b_m2 + delta2 * a_n * b_n / c_n
      moment3_ := (a_m3 + b_m3 + delta3 * a_n * b_n * (a_n - b_n) / (c_n * c_n)) +
        3 * delta * (a_n * b_m2 - b_n * a_m2) / c_n
      moment4_ := (a_m4 + b_m4 +
          delta4 * a_n * b_n * (a_n * a_n - a_n * b_n + b_n * b_n) / (c_n * c_n * c_n)) +
        (6 * delta2 * (a_n * a_n * b_m2 + b_n * b_n * a_m2) / (c_n * c_n) +
          4 * delta * (a_n * b_m3 - b_n * a_m3) / c_n) }

/-- The member `operator+=`: the state of `*this` after `*this += rhs`. -/
def operator_plus_assign (this_ rhs : StatisticsAccumulator) : StatisticsAccumulator :=
  let combined := this_.operator_plus rhs
  combined

end StatisticsAccumulator

/-- Feeding the values one by one, in order, with `add` (the loop of `add_to_accumulator`). -/
def add_to_accumulator (accumulator : StatisticsAccumulator) (values : List ℚ) :
    StatisticsAccumulator :=
  values.foldl StatisticsAccumulator.add accumulator

/-- The fold "combine the results" that ends `parallel_statistics::run`, also the two
`combined += subset` of the test `IncrementsResultsFromAnotherAccumulator`:
`combined` starts default-constructed and takes `combined += accumulator` for each one. -/
def combine_results (accumulators : List StatisticsAccumulator) : StatisticsAccumulator :=
  accumulators.foldl StatisticsAccumulator.operator_plus_assign StatisticsAccumulator.empty

/-- The helper `test_equivalence` of the tests: the count and the eight measures agree. -/
def test_equivalence (expected actual : StatisticsAccumulator) : Prop :=
  expected.count = actual.count ∧
  expected.minimum = actual.minimum ∧
  expected.maximum = actual.maximum ∧
  expected.mean = actual.mean ∧
  expected.absolute_mean = actual.absolute_mean ∧
  expected.quadratic_mean = actual.quadratic_mean ∧
  expected.standard_deviation = actual.standard_deviation ∧
  expected.skewness = actual.skewness ∧
  expected.kurtosis = actual.kurtosis

/-- The variables of the loop of the test `CombinesResultsFromMultipleAccumulators`. -/
structure SplitState where
  count : Nat
  fullset : StatisticsAccumulator
  subset1 : StatisticsAccumulator
  subset2 : StatisticsAccumulator

/-- One round of that loop: `fullset.add(value)`, then `value` goes to `subset1` or to
`subset2`.  The test decides with `(++count % 3) == 0`; here the decision is any function
`to_subset1` of the incremented position `count`. -/
def split_step (to_subset1 : Nat → Bool) (s : SplitState) (value : ℚ) : SplitState :=
  let count := s.count + 1
  if to_subset1 count then
    { count := count
      fullset := s.fullset.add value
      subset1 := s.subset1.add value
      subset2 := s.subset2 }
  else
    { count := count
      fullset := s.fullset.add value
      subset1 := s.subset1
      subset2 := s.subset2.add value }

/-- The whole loop, from three default-constructed accumulators and `count = 0`. -/
def split_loop (to_subset1 : Nat → Bool) (values : List ℚ) : SplitState :=
  values.foldl (split_step to_subset1)
    { count := 0
      fullset := StatisticsAccumulator.empty
      subset1 := StatisticsAccumulator.empty
      subset2 := StatisticsAccumulator.empty }

/-- The decision of the test itself: every third value goes to `subset1`. -/
def every_third (count : Nat) : Bool :=
  count % 3 == 0

/-- Accumulators built from the default-constructed one by `add` and `operator+`
while the count stays representable in `std::size_t`. -/
inductive Built : StatisticsAccumulator → Prop
  | empty : Built StatisticsAccumulator.empty
  | add (a : StatisticsAccumulator) (value : ℚ) :
      Built a → a.count_ + 1 < SIZE_MODULUS → Built (a.add value)
  | plus (a b : StatisticsAccumulator) :
      Built a → Built b → a.count_ + b.count_ < SIZE_MODULUS → Built (a.operator_plus b)

/-- An accumulator holding `n` times the value `3/2`, as the stress tests build them. -/
def constant_accumulator (n : Nat) : StatisticsAccumulator :=
  { count_ := n
    minimum_ := 3 / 2
    maximum_ := 3 / 2
    moment1_ := 3 / 2
    abs_moment1_ := 3 / 2
    moment2_ := 0
    moment3_ := 0
    moment4_ := 0 }

/-! ## The report (`src/lib/StatisticsReport.cpp`) -/

/-- The label constants `kValueLabel`, `kMinimumLabel`, ... passed to `label_and_value`.
They are declared in `StatisticsReportsHelpers.hpp`, which is not among the sources, so they
are the values of an enumeration. -/
inductive Label where
  | kValueLabel
  | kMinimumLabel
  | kMaximumLabel
  | kMeanLabel
  | kAbsMeanLabel
  | kRmsLabel
  | kStdDevnLabel
  | kSkewnessLabel
  | kKurtosisLabel
  deriving DecidableEq

/-- The two helpers of `stats::detail` that `description` calls.  Their header
`StatisticsReportsHelpers.hpp` is not among the sources, so they are parameters.  The
`float` handed to `label_and_value` is `none` when it is `stats::undefined()`. -/
structure ReportHelpers where
  count_description : Nat → String
  label_and_value : Label → Option ℝ → String

/-- The function `std::string description(const stats::StatisticsAccumulator&)`: the content
of `oss` at the `return`, `std::endl` being the line feed. -/
noncomputable def description (helpers : ReportHelpers) (statistics : StatisticsAccumulator) :
    String :=
  let oss : String := helpers.count_description statistics.count
  if statistics.count = 0 then oss
  else if statistics.count = 1 then
    oss ++ "\n" ++
      helpers.label_and_value Label.kValueLabel (statistics.minimum.map (fun x : ℚ => (x : ℝ)))
  else
    let oss := oss ++ "\n" ++
      helpers.label_and_value Label.kMinimumLabel (statistics.minimum.map (fun x : ℚ => (x : ℝ)))
    let oss := oss ++ "\n" ++
      helpers.label_and_value Label.kMaximumLabel (statistics.maximum.map (fun x : ℚ => (x : ℝ)))
    let oss := oss ++ "\n" ++
      helpers.label_and_value Label.kMeanLabel (statistics.mean.map (fun x : ℚ => (x : ℝ)))
    let oss := oss ++ "\n" ++
      helpers.label_and_value Label.kAbsMeanLabel
        (statistics.absolute_mean.map (fun x : ℚ => (x : ℝ)))
    let oss := oss ++ "\n" ++ helpers.label_and_value Label.kRmsLabel statistics.quadratic_mean
    let oss := oss ++ "\n" ++
      helpers.label_and_value Label.kStdDevnLabel statistics.standard_deviation
    let oss :=
      if statistics.skewness ≠ none then
        oss ++ "\n" ++ helpers.label_and_value Label.kSkewnessLabel statistics.skewness
      else oss
    let oss :=
      if statistics.kurtosis ≠ none then
        oss ++ "\n" ++
          helpers.label_and_value Label.kKurtosisLabel
            (statistics.kurtosis.map (fun x : ℚ => (x : ℝ)))
      else oss
    oss

/-- A sample pair of helpers, to run `description` on concrete accumulators. -/
def sample_helpers : ReportHelpers :=
  { count_description := fun count => toString count ++ " Values"
    label_and_value := fun label _ =>
      match label with
      | Label.kValueLabel => " Value"
      | Label.kMinimumLabel => " Minimum"
      | Label.kMaximumLabel => " Maximum"
      | Label.kMeanLabel => " Mean"
      | Label.kAbsMeanLabel => " Abs.Mean"
      | Label.kRmsLabel => " Rms"
      | Label.kStdDevnLabel => " Std.Devn"
      | Label.kSkewnessLabel => " Skewness"
      | Label.kKurtosisLabel => " Kurtosis" }

/-! ## The work splitting (`examples/ParallelStatistics.hpp`) -/

namespace parallel_statistics

/-- The function `number_of_threads_hint()`; `hardware_concurrency` is what
`std::thread::hardware_concurrency()` returns on the machine. -/
def number_of_threads_hint (hardware_concurrency : Nat) : Nat :=
  let number_of_threads := hardware_concurrency
  if number_of_threads = 0 then 2 else number_of_threads

/-- The function `optimal_number_of_threads(number_of_values)`. -/
def optimal_number_of_threads (hardware_concurrency number_of_values : Nat) : Nat :=
  let hint := number_of_threads_hint hardware_concurrency
  let number_of_threads := if number_of_values < hint then number_of_values else hint
  number_of_threads

/-- The loop of `run` over the spawned threads: each one receives the `block_size` values
at `block_start`, which then advances by `block_size`.  The result is the list of the
blocks handed out and the final `block_start` (the values not yet handed out). -/
def spawn_blocks (block_size : Nat) : Nat → List ℚ → List (List ℚ) × List ℚ
  | 0, block_start => ([], block_start)
  | spawned + 1, block_start =>
    let rest := spawn_blocks block_size spawned (block_start.drop block_size)
    (block_start.take block_size :: rest.1, rest.2)

/-- The blocks of values that `run` feeds to `accumulators[0]`, ..., `accumulators.back()`,
for a non-empty input: the blocks of the spawned threads, then the last block, processed by
the main thread.  The `size_t` arithmetic is exact here: every intermediate value is at most
`number_of_values`. -/
def blocks (hardware_concurrency : Nat) (values : List ℚ) : List (List ℚ) :=
  let number_of_values := values.length
  let number_of_threads := optimal_number_of_threads hardware_concurrency number_of_values
  let block_size := number_of_values / number_of_threads
  let spawned := spawn_blocks block_size (number_of_threads - 1) values
  let last_block_size := number_of_values - block_size * (number_of_threads - 1)
  spawned.1 ++ [spawned.2.take last_block_size]

/-- The function `run(values, number_of_values)`: each accumulator is default-constructed
and fed its block in a thread of its own; after the joins the results are combined with
`+=` in the order of the blocks. -/
def run (hardware_concurrency : Nat) (values : List ℚ) : StatisticsAccumulator :=
  if values.length = 0 then StatisticsAccumulator.empty
  else
    combine_results
      ((blocks hardware_concurrency values).map
        (add_to_accumulator StatisticsAccumulator.empty))

end parallel_statistics

/-! ## The divisors of the core -/

namespace StatisticsAccumulator

/-- The divisors of the two divisions `add` executes (`delta / nvals` and
`(fabs(dval) - abs_moment1_) / nvals`), in order. -/
def add_divisors (a : StatisticsAccumulator) (_value : ℚ) : List ℚ :=
  let count_ : Nat := (a.count_ + 1) % SIZE_MODULUS
  let nvals : ℚ := (count_ : ℚ)
  [nvals, nvals]

/-- The divisors of the divisions `operator+` executes, in order: none on the two early
returns, else those of `moment1_`, `abs_moment1_`, `moment2_`, `moment3_` (two) and
`moment4_` (three). -/
def operator_plus_divisors (this_ that : StatisticsAccumulator) : List ℚ :=
  if this_.count_ = 0 then []
  else if that.count_ = 0 then []
  else
    let c_n : ℚ := (((this_.count_ + that.count_) % SIZE_MODULUS : Nat) : ℚ)
    [c_n, c_n, c_n, c_n * c_n, c_n, c_n * c_n * c_n, c_n * c_n, c_n]

/-- The divisor of the division `quadratic_mean` executes (`moment2_ / nvals`), none when it
returns `stats::undefined()`. -/
def quadratic_mean_divisors (a : StatisticsAccumulator) : List ℚ :=
  if a.count_ = 0 then []
  else
    let nvals : ℚ := (a.count_ : ℚ)
    [nvals]

/-- The divisor of the division `standard_deviation` executes (`moment2_ / nvals`). -/
def standard_deviation_divisors (a : StatisticsAccumulator) : List ℚ :=
  if a.count_ = 0 then []
  else
    let nvals : ℚ := (a.count_ : ℚ)
    [nvals]

/-- The divisor of the division `skewness` executes (`pow(moment2_, 1.5)`). -/
noncomputable def skewness_divisors (a : StatisticsAccumulator) : List ℝ :=
  if a.count_ = 0 then []
  else if a.moment2_ = 0 then []
  else [(a.moment2_ : ℝ) ^ (1.5 : ℝ)]

/-- The divisor of the division `kurtosis` executes (`moment2_ * moment2_`). -/
def kurtosis_divisors (a : StatisticsAccumulator) : List ℚ :=
  if a.count_ = 0 then []
  else if a.moment2_ = 0 then []
  else [a.moment2_ * a.moment2_]

end StatisticsAccumulator

/-! ## Division by zero in `double` arithmetic -/

/-- A value of `double` arithmetic without rounding: a rational number, an infinity, or not a
number.  The fields of the accumulator hold rational numbers; the other three values only
arise where the code divides by zero. -/
inductive Extended where
  | finite (q : ℚ)
  | pos_inf
  | neg_inf
  | nan
  deriving DecidableEq

namespace Extended

/-- The sum of `double`: opposite infinities give not a number. -/
def add : Extended → Extended → Extended
  | finite p, finite q => finite (p + q)
  | nan, _ => nan
  | _, nan => nan
  | pos_inf, neg_inf => nan
  | neg_inf, pos_inf => nan
  | pos_inf, _ => pos_inf
  | _, pos_inf => pos_inf
  | neg_inf, _ => neg_inf
  | _, neg_inf => neg_inf

/-- The comparison `<=` of `double`: false as soon as one side is not a number. -/
def le : Extended → Extended → Prop
  | finite p, finite q => p ≤ q
  | nan, _ => False
  | _, nan => False
  | neg_inf, _ => True
  | _, pos_inf => True
  | pos_inf, finite _ => False
  | pos_inf, neg_inf => False
  | finite _, neg_inf => False

end Extended

namespace StatisticsAccumulator

end StatisticsAccumulator

/-! ## Quantities used in the proofs -/

/-- Sum of the `k`-th powers of the values. -/
def power_sum (k : Nat) (values : List ℚ) : ℚ :=
  (values.map (fun x => x ^ k)).sum

/-- Sum of the absolute values. -/
def abs_sum (values : List ℚ) : ℚ :=
  (values.map (fun x => |x|)).sum

/-- Sum of the `k`-th powers of the deviations from `m`. -/
def central_sum (k : Nat) (m : ℚ) (values : List ℚ) : ℚ :=
  (values.map (fun x => (x - m) ^ k)).sum

/-- Running minimum as `add` keeps it: `minimum_ = std::min(value, minimum_)` for each value. -/
def running_min (start : ℚ) (values : List ℚ) : ℚ :=
  values.foldl (fun m x => min x m) start

/-- Running maximum as `add` keeps it: `maximum_ = std::max(value, maximum_)` for each value. -/
def running_max (start : ℚ) (values : List ℚ) : ℚ :=
  values.foldl (fun m x => max x m) start

namespace StatisticsAccumulator

/-- The sum of the values a state stands for: `count * mean`. -/
def raw1 (a : StatisticsAccumulator) : ℚ :=
  (a.count_ : ℚ) * a.moment1_

/-- The sum of the absolute values a state stands for. -/
def rawAbs (a : StatisticsAccumulator) : ℚ :=
  (a.count_ : ℚ) * a.abs_moment1_

/-- The sum of squares a state stands for. -/
def raw2 (a : StatisticsAccumulator) : ℚ :=
  a.moment2_ + (a.count_ : ℚ) * a.moment1_ ^ 2

/-- The sum of cubes a state stands for. -/
def raw3 (a : StatisticsAccumulator) : ℚ :=
  a.moment3_ + 3 * a.moment1_ * a.moment2_ + (a.count_ : ℚ) * a.moment1_ ^ 3

/-- The sum of fourth powers a state stands for. -/
def raw4 (a : StatisticsAccumulator) : ℚ :=
  a.moment4_ + 4 * a.moment1_ * a.moment3_ + 6 * a.moment1_ ^ 2 * a.moment2_ +
    (a.count_ : ℚ) * a.moment1_ ^ 4

end StatisticsAccumulator

/-! ## Lemmas -/

namespace StatisticsAccumulator

theorem add_count_ (a : StatisticsAccumulator) (x : ℚ) (h : a.count_ + 1 < SIZE_MODULUS) :
    (a.add x).count_ = a.count_ + 1 := by
  simp only [add]
  exact Nat.mod_eq_of_lt h

theorem add_minimum_ (a : StatisticsAccumulator) (x : ℚ) :
    (a.add x).minimum_ = min x a.minimum_ := rfl

theorem add_maximum_ (a : StatisticsAccumulator) (x : ℚ) :
    (a.add x).maximum_ = max x a.maximum_ := rfl

theorem add_raw1 (a : StatisticsAccumulator) (x : ℚ) (h : a.count_ + 1 < SIZE_MODULUS) :
    (a.add x).raw1 = a.raw1 + x := by
  have hn : ((a.count_ : ℚ) + 1) ≠ 0 := by positivity
  simp only [raw1, add, Nat.mod_eq_of_lt h, Nat.cast_add, Nat.cast_one]
  field_simp
  ring

theorem add_rawAbs (a : StatisticsAccumulator) (x : ℚ) (h : a.count_ + 1 < SIZE_MODULUS) :
    (a.add x).rawAbs = a.rawAbs + |x| := by
  have hn : ((a.count_ : ℚ) + 1) ≠ 0 := by positivity
  simp only [rawAbs, add, Nat.mod_eq_of_lt h, Nat.cast_add, Nat.cast_one]
  field_simp
  ring

theorem add_raw2 (a : StatisticsAccumulator) (x : ℚ) (h : a.count_ + 1 < SIZE_MODULUS) :
    (a.add x).raw2 = a.raw2 + x ^ 2 := by
  have hn : ((a.count_ : ℚ) + 1) ≠ 0 := by positivity
  simp only [raw2, add, Nat.mod_eq_of_lt h, Nat.cast_add, Nat.cast_one]
  field_simp
  ring

theorem add_raw3 (a : StatisticsAccumulator) (x : ℚ) (h : a.count_ + 1 < SIZE_MODULUS) :
    (a.add x).raw3 = a.raw3 + x ^ 3 := by
  have hn : ((a.count_ : ℚ) + 1) ≠ 0 := by positivity
  simp only [raw3, add, Nat.mod_eq_of_lt h, Nat.cast_add, Nat.cast_one]
  field_simp
  ring

theorem add_raw4 (a : StatisticsAccumulator) (x : ℚ) (h : a.count_ + 1 < SIZE_MODULUS) :
    (a.add x).raw4 = a.raw4 + x ^ 4 := by
  have hn : ((a.count_ : ℚ) + 1) ≠ 0 := by positivity
  simp only [raw4, add, Nat.mod_eq_of_lt h, Nat.cast_add, Nat.cast_one]
  field_simp
  ring

theorem plus_of_left_zero (a b : StatisticsAccumulator) (ha : a.count_ = 0) :
    a.operator_plus b = b := by
  simp [operator_plus, ha]

theorem plus_of_right_zero (a b : StatisticsAccumulator) (ha : a.count_ ≠ 0)
    (hb : b.count_ = 0) : a.operator_plus b = a := by
  simp [operator_plus, ha, hb]

theorem plus_count_ (a b : StatisticsAccumulator) (h : a.count_ + b.count_ < SIZE_MODULUS) :
    (a.operator_plus b).count_ = a.count_ + b.count_ := by
  unfold operator_plus
  split_ifs with ha hb
  · simp [ha]
  · simp [hb]
  · exact Nat.mod_eq_of_lt h

theorem plus_minimum_ (a b : StatisticsAccumulator) (ha : a.count_ ≠ 0) (hb : b.count_ ≠ 0) :
    (a.operator_plus b).minimum_ = min a.minimum_ b.minimum_ := by
  simp only [operator_plus, if_neg ha, if_neg hb]

theorem plus_maximum_ (a b : StatisticsAccumulator) (ha : a.count_ ≠ 0) (hb : b.count_ ≠ 0) :
    (a.operator_plus b).maximum_ = max a.maximum_ b.maximum_ := by
  simp only [operator_plus, if_neg ha, if_neg hb]

theorem cast_count_sum_ne_zero (a b : StatisticsAccumulator) (ha : a.count_ ≠ 0) :
    ((a.count_ : ℚ) + (b.count_ : ℚ)) ≠ 0 := by
  have : (0 : ℚ) < a.count_ := by exact_mod_cast Nat.pos_of_ne_zero ha
  positivity

theorem plus_raw1 (a b : StatisticsAccumulator) (ha : a.count_ ≠ 0) (hb : b.count_ ≠ 0)
    (h : a.count_ + b.count_ < SIZE_MODULUS) :
    (a.operator_plus b).raw1 = a.raw1 + b.raw1 := by
  have hn := cast_count_sum_ne_zero a b ha
  simp only [raw1, operator_plus, if_neg ha, if_neg hb, Nat.mod_eq_of_lt h, Nat.cast_add]
  field_simp

theorem plus_rawAbs (a b : StatisticsAccumulator) (ha : a.count_ ≠ 0) (hb : b.count_ ≠ 0)
    (h : a.count_ + b.count_ < SIZE_MODULUS) :
    (a.operator_plus b).rawAbs = a.rawAbs + b.rawAbs := by
  have hn := cast_count_sum_ne_zero a b ha
  simp only [rawAbs, operator_plus, if_neg ha, if_neg hb, Nat.mod_eq_of_lt h, Nat.cast_add]
  field_simp

theorem plus_raw2 (a b : StatisticsAccumulator) (ha : a.count_ ≠ 0) (hb : b.count_ ≠ 0)
    (h : a.count_ + b.count_ < SIZE_MODULUS) :
    (a.operator_plus b).raw2 = a.raw2 + b.raw2 := by
  have hn := cast_count_sum_ne_zero a b ha
  simp only [raw2, operator_plus, if_neg ha, if_neg hb, Nat.mod_eq_of_lt h, Nat.cast_add]
  field_simp
  ring

theorem plus_raw3 (a b : StatisticsAccumulator) (ha : a.count_ ≠ 0) (hb : b.count_ ≠ 0)
    (h : a.count_ + b.count_ < SIZE_MODULUS) :
    (a.operator_plus b).raw3 = a.raw3 + b.raw3 := by
  have hn := cast_count_sum_ne_zero a b ha
  simp only [raw3, operator_plus, if_neg ha, if_neg hb, Nat.mod_eq_of_lt h, Nat.cast_add]
  field_simp
  ring

theorem plus_raw4 (a b : StatisticsAccumulator) (ha : a.count_ ≠ 0) (hb : b.count_ ≠ 0)
    (h : a.count_ + b.count_ < SIZE_MODULUS) :
    (a.operator_plus b).raw4 = a.raw4 + b.raw4 := by
  have hn := cast_count_sum_ne_zero a b ha
  simp only [raw4, operator_plus, if_neg ha, if_neg hb, Nat.mod_eq_of_lt h, Nat.cast_add]
  field_simp
  ring

/-- Two states with the same non-zero count, the same extrema and the same raw sums are equal. -/
theorem eq_of_raw (a b : StatisticsAccumulator) (hc : a.count_ = b.count_) (h0 : a.count_ ≠ 0)
    (hmin : a.minimum_ = b.minimum_) (hmax : a.maximum_ = b.maximum_)
    (h1 : a.raw1 = b.raw1) (hA : a.rawAbs = b.rawAbs) (h2 : a.raw2 = b.raw2)
    (h3 : a.raw3 = b.raw3) (h4 : a.raw4 = b.raw4) : a = b := by
  have hn : (b.count_ : ℚ) ≠ 0 := by
    rw [← hc]; exact_mod_cast h0
  obtain ⟨ac, amin, amax, am1, aab, am2, am3, am4⟩ := a
  obtain ⟨bc, bmin, bmax, bm1, bab, bm2, bm3, bm4⟩ := b
  simp only [raw1, rawAbs, raw2, raw3, raw4] at *
  subst hc hmin hmax
  have e1 : am1 = bm1 := mul_left_cancel₀ hn h1
  have eA : aab = bab := mul_left_cancel₀ hn hA
  subst e1 eA
  have e2 : am2 = bm2 := by linarith
  subst e2
  have e3 : am3 = bm3 := by linarith
  subst e3
  have e4 : am4 = bm4 := by linarith
  subst e4
  rfl

end StatisticsAccumulator

open StatisticsAccumulator

theorem fold_count_ (xs : List ℚ) : ∀ a : StatisticsAccumulator,
    a.count_ + xs.length < SIZE_MODULUS →
    (add_to_accumulator a xs).count_ = a.count_ + xs.length := by
  induction xs with
  | nil => intro a _; rfl
  | cons x xs ih =>
    intro a h
    simp only [List.length_cons] at h
    have h1 : a.count_ + 1 < SIZE_MODULUS := by omega
    have hc := add_count_ a x h1
    have := ih (a.add x) (by omega)
    simp only [add_to_accumulator, List.foldl_cons, List.length_cons] at this ⊢
    rw [this, hc]; omega

theorem fold_minimum_ (xs : List ℚ) : ∀ a : StatisticsAccumulator,
    (add_to_accumulator a xs).minimum_ = running_min a.minimum_ xs := by
  induction xs with
  | nil => intro a; rfl
  | cons x xs ih =>
    intro a
    have := ih (a.add x)
    simp only [add_to_accumulator, running_min, List.foldl_cons] at this ⊢
    rw [this]; rfl

theorem fold_maximum_ (xs : List ℚ) : ∀ a : StatisticsAccumulator,
    (add_to_accumulator a xs).maximum_ = running_max a.maximum_ xs := by
  induction xs with
  | nil => intro a; rfl
  | cons x xs ih =>
    intro a
    have := ih (a.add x)
    simp only [add_to_accumulator, running_max, List.foldl_cons] at this ⊢
    rw [this]; rfl

theorem fold_raw1 (xs : List ℚ) : ∀ a : StatisticsAccumulator,
    a.count_ + xs.length < SIZE_MODULUS →
    (add_to_accumulator a xs).raw1 = a.raw1 + xs.sum := by
  induction xs with
  | nil => intro a _; simp [add_to_accumulator]
  | cons x xs ih =>
    intro a h
    simp only [List.length_cons] at h
    have h1 : a.count_ + 1 < SIZE_MODULUS := by omega
    have hc := add_count_ a x h1
    have := ih (a.add x) (by omega)
    simp only [add_to_accumulator, List.foldl_cons, List.sum_cons] at this ⊢
    rw [this, add_raw1 a x h1]; ring

theorem fold_rawAbs (xs : List ℚ) : ∀ a : StatisticsAccumulator,
    a.count_ + xs.length < SIZE_MODULUS →
    (add_to_accumulator a xs).rawAbs = a.rawAbs + abs_sum xs := by
  induction xs with
  | nil => intro a _; simp [add_to_accumulator, abs_sum]
  | cons x xs ih =>
    intro a h
    simp only [List.length_cons] at h
    have h1 : a.count_ + 1 < SIZE_MODULUS := by omega
    have hc := add_count_ a x h1
    have := ih (a.add x) (by omega)
    simp only [add_to_accumulator, List.foldl_cons, abs_sum, List.map_cons, List.sum_cons] at this ⊢
    rw [this, add_rawAbs a x h1]; ring

theorem fold_raw2 (xs : List ℚ) : ∀ a : StatisticsAccumulator,
    a.count_ + xs.length < SIZE_MODULUS →
    (add_to_accumulator a xs).raw2 = a.raw2 + power_sum 2 xs := by
  induction xs with
  | nil => intro a _; simp [add_to_accumulator, power_sum]
  | cons x xs ih =>
    intro a h
    simp only [List.length_cons] at h
    have h1 : a.count_ + 1 < SIZE_MODULUS := by omega
    have hc := add_count_ a x h1
    have := ih (a.add x) (by omega)
    simp only [add_to_accumulator, List.foldl_cons, power_sum, List.map_cons, List.sum_cons] at this ⊢
    rw [this, add_raw2 a x h1]; ring

theorem fold_raw3 (xs : List ℚ) : ∀ a : StatisticsAccumulator,
    a.count_ + xs.length < SIZE_MODULUS →
    (add_to_accumulator a xs).raw3 = a.raw3 + power_sum 3 xs := by
  induction xs with
  | nil => intro a _; simp [add_to_accumulator, power_sum]
  | cons x xs ih =>
    intro a h
    simp only [List.length_cons] at h
    have h1 : a.count_ + 1 < SIZE_MODULUS := by omega
    have hc := add_count_ a x h1
    have := ih (a.add x) (by omega)
    simp only [add_to_accumulator, List.foldl_cons, power_sum, List.map_cons, List.sum_cons] at this ⊢
    rw [this, add_raw3 a x h1]; ring

theorem fold_raw4 (xs : List ℚ) : ∀ a : StatisticsAccumulator,
    a.count_ + xs.length < SIZE_MODULUS →
    (add_to_accumulator a xs).raw4 = a.raw4 + power_sum 4 xs := by
  induction xs with
  | nil => intro a _; simp [add_to_accumulator, power_sum]
  | cons x xs ih =>
    intro a h
    simp only [List.length_cons] at h
    have h1 : a.count_ + 1 < SIZE_MODULUS := by omega
    have hc := add_count_ a x h1
    have := ih (a.add x) (by omega)
    simp only [add_to_accumulator, List.foldl_cons, power_sum, List.map_cons, List.sum_cons] at this ⊢
    rw [this, add_raw4 a x h1]; ring

theorem running_min_min (xs : List ℚ) : ∀ m1 m2 : ℚ,
    running_min (min m1 m2) xs = min m1 (running_min m2 xs) := by
  induction xs with
  | nil => intro m1 m2; rfl
  | cons x xs ih =>
    intro m1 m2
    have := ih m1 (min x m2)
    simp only [running_min, List.foldl_cons] at this ⊢
    rw [← this, min_left_comm]

theorem running_max_max (xs : List ℚ) : ∀ m1 m2 : ℚ,
    running_max (max m1 m2) xs = max m1 (running_max m2 xs) := by
  induction xs with
  | nil => intro m1 m2; rfl
  | cons x xs ih =>
    intro m1 m2
    have := ih m1 (max x m2)
    simp only [running_max, List.foldl_cons] at this ⊢
    rw [← this, max_left_comm]

theorem running_min_le (xs : List ℚ) (m : ℚ) : running_min m xs ≤ m := by
  have := running_min_min xs m m
  rw [min_self] at this
  rw [this]; exact min_le_left _ _

theorem le_running_max (xs : List ℚ) (m : ℚ) : m ≤ running_max m xs := by
  have := running_max_max xs m m
  rw [max_self] at this
  rw [this]; exact le_max_left _ _

theorem running_min_append (xs ys : List ℚ) (m : ℚ) :
    running_min m (xs ++ ys) = min (running_min m xs) (running_min m ys) := by
  have h1 : running_min m (xs ++ ys) = running_min (running_min m xs) ys := by
    simp only [running_min, List.foldl_append]
  have h2 : running_min m xs = min (running_min m xs) m := (min_eq_left (running_min_le xs m)).symm
  rw [h1]
  conv_lhs => rw [h2]
  exact running_min_min ys _ _

theorem running_max_append (xs ys : List ℚ) (m : ℚ) :
    running_max m (xs ++ ys) = max (running_max m xs) (running_max m ys) := by
  have h1 : running_max m (xs ++ ys) = running_max (running_max m xs) ys := by
    simp only [running_max, List.foldl_append]
  have h2 : running_max m xs = max (running_max m xs) m := (max_eq_left (le_running_max xs m)).symm
  rw [h1]
  conv_lhs => rw [h2]
  exact running_max_max ys _ _

theorem running_min_perm {xs ys : List ℚ} (p : xs.Perm ys) (m : ℚ) :
    running_min m xs = running_min m ys := by
  unfold running_min
  exact List.Perm.foldl_eq' p (fun x _ y _ z => by
    show min y (min x z) = min x (min y z)
    exact min_left_comm _ _ _) m

theorem running_max_perm {xs ys : List ℚ} (p : xs.Perm ys) (m : ℚ) :
    running_max m xs = running_max m ys := by
  unfold running_max
  exact List.Perm.foldl_eq' p (fun x _ y _ z => by
    show max y (max x z) = max x (max y z)
    exact max_left_comm _ _ _) m

theorem power_sum_append (k : Nat) (xs ys : List ℚ) :
    power_sum k (xs ++ ys) = power_sum k xs + power_sum k ys := by
  simp [power_sum, List.map_append, List.sum_append]

theorem abs_sum_append (xs ys : List ℚ) : abs_sum (xs ++ ys) = abs_sum xs + abs_sum ys := by
  simp [abs_sum, List.map_append, List.sum_append]

theorem power_sum_perm (k : Nat) {xs ys : List ℚ} (p : xs.Perm ys) :
    power_sum k xs = power_sum k ys :=
  (p.map _).sum_eq

theorem abs_sum_perm {xs ys : List ℚ} (p : xs.Perm ys) : abs_sum xs = abs_sum ys :=
  (p.map _).sum_eq

theorem empty_count_ : StatisticsAccumulator.empty.count_ = 0 := rfl

theorem empty_raw1 : StatisticsAccumulator.empty.raw1 = 0 := by
  simp [raw1, StatisticsAccumulator.empty]
theorem empty_rawAbs : StatisticsAccumulator.empty.rawAbs = 0 := by
  simp [rawAbs, StatisticsAccumulator.empty]
theorem empty_raw2 : StatisticsAccumulator.empty.raw2 = 0 := by
  simp [raw2, StatisticsAccumulator.empty]
theorem empty_raw3 : StatisticsAccumulator.empty.raw3 = 0 := by
  simp [raw3, StatisticsAccumulator.empty]
theorem empty_raw4 : StatisticsAccumulator.empty.raw4 = 0 := by
  simp [raw4, StatisticsAccumulator.empty]

/-- What feeding `xs` to a default-constructed accumulator leaves in the state. -/
theorem fed_count_ (xs : List ℚ) (h : xs.length < SIZE_MODULUS) :
    (add_to_accumulator StatisticsAccumulator.empty xs).count_ = xs.length := by
  have := fold_count_ xs StatisticsAccumulator.empty (by rw [empty_count_]; omega)
  rw [this, empty_count_]; omega

theorem fed_raw1 (xs : List ℚ) (h : xs.length < SIZE_MODULUS) :
    (add_to_accumulator StatisticsAccumulator.empty xs).raw1 = xs.sum := by
  rw [fold_raw1 xs _ (by rw [empty_count_]; omega), empty_raw1, zero_add]

theorem fed_rawAbs (xs : List ℚ) (h : xs.length < SIZE_MODULUS) :
    (add_to_accumulator StatisticsAccumulator.empty xs).rawAbs = abs_sum xs := by
  rw [fold_rawAbs xs _ (by rw [empty_count_]; omega), empty_rawAbs, zero_add]

theorem fed_raw2 (xs : List ℚ) (h : xs.length < SIZE_MODULUS) :
    (add_to_accumulator StatisticsAccumulator.empty xs).raw2 = power_sum 2 xs := by
  rw [fold_raw2 xs _ (by rw [empty_count_]; omega), empty_raw2, zero_add]

theorem fed_raw3 (xs : List ℚ) (h : xs.length < SIZE_MODULUS) :
    (add_to_accumulator StatisticsAccumulator.empty xs).raw3 = power_sum 3 xs := by
  rw [fold_raw3 xs _ (by rw [empty_count_]; omega), empty_raw3, zero_add]

theorem fed_raw4 (xs : List ℚ) (h : xs.length < SIZE_MODULUS) :
    (add_to_accumulator StatisticsAccumulator.empty xs).raw4 = power_sum 4 xs := by
  rw [fold_raw4 xs _ (by rw [empty_count_]; omega), empty_raw4, zero_add]

theorem fed_count_ne_zero (xs : List ℚ) (hne : xs ≠ []) (h : xs.length < SIZE_MODULUS) :
    (add_to_accumulator StatisticsAccumulator.empty xs).count_ ≠ 0 := by
  rw [fed_count_ xs h]
  exact fun h0 => hne (List.length_eq_zero.mp h0)

/-- Combining two fed accumulators is feeding the concatenation. -/
theorem plus_fed (xs ys : List ℚ) (h : xs.length + ys.length < SIZE_MODULUS) :
    (add_to_accumulator StatisticsAccumulator.empty xs).operator_plus
        (add_to_accumulator StatisticsAccumulator.empty ys) =
      add_to_accumulator StatisticsAccumulator.empty (xs ++ ys) := by
  have hx : xs.length < SIZE_MODULUS := by omega
  have hy : ys.length < SIZE_MODULUS := by omega
  have hxy : (xs ++ ys).length < SIZE_MODULUS := by rw [List.length_append]; exact h
  by_cases ex : xs = []
  · subst ex
    rw [plus_of_left_zero _ _ (by rfl)]
    rfl
  by_cases ey : ys = []
  · subst ey
    rw [plus_of_right_zero _ _ (fed_count_ne_zero xs ex hx) (by rfl), List.append_nil]
  have cx := fed_count_ne_zero xs ex hx
  have cy := fed_count_ne_zero ys ey hy
  have hsum : (add_to_accumulator StatisticsAccumulator.empty xs).count_ +
      (add_to_accumulator StatisticsAccumulator.empty ys).count_ < SIZE_MODULUS := by
    rw [fed_count_ xs hx, fed_count_ ys hy]; exact h
  apply eq_of_raw
  · rw [plus_count_ _ _ hsum, fed_count_ xs hx, fed_count_ ys hy, fed_count_ _ hxy,
      List.length_append]
  · rw [plus_count_ _ _ hsum]; omega
  · rw [plus_minimum_ _ _ cx cy, fold_minimum_, fold_minimum_, fold_minimum_,
      running_min_append]
  · rw [plus_maximum_ _ _ cx cy, fold_maximum_, fold_maximum_, fold_maximum_,
      running_max_append]
  · rw [plus_raw1 _ _ cx cy hsum, fed_raw1 xs hx, fed_raw1 ys hy, fed_raw1 _ hxy,
      List.sum_append]
  · rw [plus_rawAbs _ _ cx cy hsum, fed_rawAbs xs hx, fed_rawAbs ys hy, fed_rawAbs _ hxy,
      abs_sum_append]
  · rw [plus_raw2 _ _ cx cy hsum, fed_raw2 xs hx, fed_raw2 ys hy, fed_raw2 _ hxy,
      power_sum_append]
  · rw [plus_raw3 _ _ cx cy hsum, fed_raw3 xs hx, fed_raw3 ys hy, fed_raw3 _ hxy,
      power_sum_append]
  · rw [plus_raw4 _ _ cx cy hsum, fed_raw4 xs hx, fed_raw4 ys hy, fed_raw4 _ hxy,
      power_sum_append]

/-- The state does not depend on the order in which the values are fed. -/
theorem fed_perm {xs ys : List ℚ} (p : xs.Perm ys) (h : xs.length < SIZE_MODULUS) :
    add_to_accumulator StatisticsAccumulator.empty xs =
      add_to_accumulator StatisticsAccumulator.empty ys := by
  have hy : ys.length < SIZE_MODULUS := by rw [← p.length_eq]; exact h
  by_cases ex : xs = []
  · subst ex
    rw [List.Perm.nil_eq p]
  apply eq_of_raw
  · rw [fed_count_ xs h, fed_count_ ys hy, p.length_eq]
  · exact fed_count_ne_zero xs ex h
  · rw [fold_minimum_, fold_minimum_, running_min_perm p]
  · rw [fold_maximum_, fold_maximum_, running_max_perm p]
  · rw [fed_raw1 xs h, fed_raw1 ys hy, p.sum_eq]
  · rw [fed_rawAbs xs h, fed_rawAbs ys hy, abs_sum_perm p]
  · rw [fed_raw2 xs h, fed_raw2 ys hy, power_sum_perm 2 p]
  · rw [fed_raw3 xs h, fed_raw3 ys hy, power_sum_perm 3 p]
  · rw [fed_raw4 xs h, fed_raw4 ys hy, power_sum_perm 4 p]

/-- A built accumulator with count 0 is in the default-constructed state. -/
theorem built_count_zero {a : StatisticsAccumulator} (hb : Built a) :
    a.count_ = 0 → a = StatisticsAccumulator.empty := by
  induction hb with
  | empty => intro _; rfl
  | add a value _ h _ =>
    intro h0
    rw [add_count_ a value h] at h0
    omega
  | plus a b _ _ h iha ihb =>
    intro h0
    rw [plus_count_ a b h] at h0
    have ha : a.count_ = 0 := by omega
    have hb : b.count_ = 0 := by omega
    rw [plus_of_left_zero a b ha]
    exact ihb hb

/-- With both counts non-zero the formulas of `operator+` are symmetric. -/
theorem plus_comm_of_ne_zero (a b : StatisticsAccumulator) (ha : a.count_ ≠ 0)
    (hb : b.count_ ≠ 0) : a.operator_plus b = b.operator_plus a := by
  simp only [operator_plus, if_neg ha, if_neg hb, Nat.add_comm b.count_ a.count_]
  congr 1
  · exact min_comm _ _
  · exact max_comm _ _
  · ring
  · ring
  · ring
  · ring
  · ring

theorem plus_assoc_of_lt (a b c : StatisticsAccumulator)
    (h : a.count_ + b.count_ + c.count_ < SIZE_MODULUS) :
    (a.operator_plus b).operator_plus c = a.operator_plus (b.operator_plus c) := by
  by_cases ha : a.count_ = 0
  · rw [plus_of_left_zero a b ha, plus_of_left_zero a _ ha]
  by_cases hb : b.count_ = 0
  · rw [plus_of_right_zero a b ha hb, plus_of_left_zero b c hb]
  have hab : a.count_ + b.count_ < SIZE_MODULUS := by omega
  have hbc : b.count_ + c.count_ < SIZE_MODULUS := by omega
  have cab : (a.operator_plus b).count_ = a.count_ + b.count_ := plus_count_ a b hab
  have cbc : (b.operator_plus c).count_ = b.count_ + c.count_ := plus_count_ b c hbc
  have nab : (a.operator_plus b).count_ ≠ 0 := by omega
  by_cases hc : c.count_ = 0
  · rw [plus_of_right_zero _ c nab hc, plus_of_right_zero b c hb hc]
  have nbc : (b.operator_plus c).count_ ≠ 0 := by omega
  have h1 : (a.operator_plus b).count_ + c.count_ < SIZE_MODULUS := by omega
  have h2 : a.count_ + (b.operator_plus c).count_ < SIZE_MODULUS := by omega
  apply eq_of_raw
  · rw [plus_count_ _ _ h1, plus_count_ _ _ h2, cab, cbc]; omega
  · rw [plus_count_ _ _ h1]; omega
  · rw [plus_minimum_ _ _ nab hc, plus_minimum_ _ _ ha nbc, plus_minimum_ _ _ ha hb,
      plus_minimum_ _ _ hb hc, min_assoc]
  · rw [plus_maximum_ _ _ nab hc, plus_maximum_ _ _ ha nbc, plus_maximum_ _ _ ha hb,
      plus_maximum_ _ _ hb hc, max_assoc]
  · rw [plus_raw1 _ _ nab hc h1, plus_raw1 _ _ ha nbc h2, plus_raw1 _ _ ha hb hab,
      plus_raw1 _ _ hb hc hbc, add_assoc]
  · rw [plus_rawAbs _ _ nab hc h1, plus_rawAbs _ _ ha nbc h2, plus_rawAbs _ _ ha hb hab,
      plus_rawAbs _ _ hb hc hbc, add_assoc]
  · rw [plus_raw2 _ _ nab hc h1, plus_raw2 _ _ ha nbc h2, plus_raw2 _ _ ha hb hab,
      plus_raw2 _ _ hb hc hbc, add_assoc]
  · rw [plus_raw3 _ _ nab hc h1, plus_raw3 _ _ ha nbc h2, plus_raw3 _ _ ha hb hab,
      plus_raw3 _ _ hb hc hbc, add_assoc]
  · rw [plus_raw4 _ _ nab hc h1, plus_raw4 _ _ ha nbc h2, plus_raw4 _ _ ha hb hab,
      plus_raw4 _ _ hb hc hbc, add_assoc]

/-- Folding `+=` over the accumulators of the blocks, from an accumulator already fed `pre`. -/
theorem foldl_plus_assign_fed (blocks : List (List ℚ)) : ∀ pre : List ℚ,
    pre.length + blocks.flatten.length < SIZE_MODULUS →
    (blocks.map (add_to_accumulator StatisticsAccumulator.empty)).foldl
        StatisticsAccumulator.operator_plus_assign
        (add_to_accumulator StatisticsAccumulator.empty pre) =
      add_to_accumulator StatisticsAccumulator.empty (pre ++ blocks.flatten) := by
  induction blocks with
  | nil => intro pre _; simp
  | cons blk rest ih =>
    intro pre h
    simp only [List.flatten_cons, List.length_append] at h
    simp only [List.map_cons, List.foldl_cons, List.flatten_cons]
    have hstep : (add_to_accumulator StatisticsAccumulator.empty pre).operator_plus_assign
        (add_to_accumulator StatisticsAccumulator.empty blk) =
        add_to_accumulator StatisticsAccumulator.empty (pre ++ blk) :=
      plus_fed pre blk (by omega)
    rw [hstep, ih (pre ++ blk) (by rw [List.length_append]; omega), List.append_assoc]

/-- The loop of the split test leaves accumulators fed with the whole list and with two
sub-lists that together are a rearrangement of it. -/
theorem split_fold (to_subset1 : Nat → Bool) (values : List ℚ) :
    ∀ (s : SplitState) (l l1 l2 : List ℚ),
      s.fullset = add_to_accumulator StatisticsAccumulator.empty l →
      s.subset1 = add_to_accumulator StatisticsAccumulator.empty l1 →
      s.subset2 = add_to_accumulator StatisticsAccumulator.empty l2 →
      (l1 ++ l2).Perm l →
      ∃ m1 m2 : List ℚ,
        (values.foldl (split_step to_subset1) s).fullset =
            add_to_accumulator StatisticsAccumulator.empty (l ++ values) ∧
          (values.foldl (split_step to_subset1) s).subset1 =
            add_to_accumulator StatisticsAccumulator.empty m1 ∧
          (values.foldl (split_step to_subset1) s).subset2 =
            add_to_accumulator StatisticsAccumulator.empty m2 ∧
          (m1 ++ m2).Perm (l ++ values) := by
  induction values with
  | nil =>
    intro s l l1 l2 hf h1 h2 hp
    exact ⟨l1, l2, by simpa using hf, h1, h2, by simpa using hp⟩
  | cons v vs ih =>
    intro s l l1 l2 hf h1 h2 hp
    have hfull : ∀ t : StatisticsAccumulator, ∀ k : List ℚ,
        t = add_to_accumulator StatisticsAccumulator.empty k →
        t.add v = add_to_accumulator StatisticsAccumulator.empty (k ++ [v]) := by
      intro t k ht
      rw [ht]; simp [add_to_accumulator, List.foldl_append]
    simp only [List.foldl_cons]
    by_cases hsel : to_subset1 (s.count + 1) = true
    · have hs : split_step to_subset1 s v =
          { count := s.count + 1, fullset := s.fullset.add v,
            subset1 := s.subset1.add v, subset2 := s.subset2 } := by
        simp [split_step, hsel]
      obtain ⟨m1, m2, e0, e1, e2, ep⟩ := ih (split_step to_subset1 s v) (l ++ [v])
        (l1 ++ [v]) l2 (by rw [hs]; exact hfull _ _ hf) (by rw [hs]; exact hfull _ _ h1)
        (by rw [hs]; exact h2)
        (by
          have : (l1 ++ [v] ++ l2).Perm (l1 ++ l2 ++ [v]) := by
            rw [List.append_assoc, List.append_assoc]
            exact List.Perm.append_left l1 List.perm_append_comm
          exact this.trans (List.Perm.append_right [v] hp))
      refine ⟨m1, m2, ?_, e1, e2, ?_⟩
      · rw [e0, List.append_assoc]; rfl
      · rw [List.append_assoc] at ep; exact ep
    · have hs : split_step to_subset1 s v =
          { count := s.count + 1, fullset := s.fullset.add v,
            subset1 := s.subset1, subset2 := s.subset2.add v } := by
        simp [split_step, hsel]
      obtain ⟨m1, m2, e0, e1, e2, ep⟩ := ih (split_step to_subset1 s v) (l ++ [v])
        l1 (l2 ++ [v]) (by rw [hs]; exact hfull _ _ hf) (by rw [hs]; exact h1)
        (by rw [hs]; exact hfull _ _ h2)
        (by
          rw [← List.append_assoc]
          exact List.Perm.append_right [v] hp)
      refine ⟨m1, m2, ?_, e1, e2, ?_⟩
      · rw [e0, List.append_assoc]; rfl
      · rw [List.append_assoc] at ep; exact ep

theorem central_sum_two (m : ℚ) (xs : List ℚ) :
    central_sum 2 m xs = power_sum 2 xs - 2 * m * xs.sum + (xs.length : ℚ) * m ^ 2 := by
  induction xs with
  | nil => simp [central_sum, power_sum]
  | cons x xs ih =>
    simp only [central_sum, power_sum, List.map_cons, List.sum_cons, List.length_cons,
      Nat.cast_add, Nat.cast_one] at ih ⊢
    rw [ih]; ring

theorem fed_moment1_ (xs : List ℚ) (hne : xs ≠ []) (h : xs.length < SIZE_MODULUS) :
    (add_to_accumulator StatisticsAccumulator.empty xs).moment1_ = xs.sum / (xs.length : ℚ) := by
  have hr := fed_raw1 xs h
  have hc := fed_count_ xs h
  have hn : ((xs.length : ℕ) : ℚ) ≠ 0 := by
    exact_mod_cast fun h0 => hne (List.length_eq_zero.mp h0)
  rw [raw1, hc] at hr
  rw [eq_div_iff hn, mul_comm]; exact hr

theorem fed_abs_moment1_ (xs : List ℚ) (hne : xs ≠ []) (h : xs.length < SIZE_MODULUS) :
    (add_to_accumulator StatisticsAccumulator.empty xs).abs_moment1_ =
      abs_sum xs / (xs.length : ℚ) := by
  have hr := fed_rawAbs xs h
  have hc := fed_count_ xs h
  have hn : ((xs.length : ℕ) : ℚ) ≠ 0 := by
    exact_mod_cast fun h0 => hne (List.length_eq_zero.mp h0)
  rw [rawAbs, hc] at hr
  rw [eq_div_iff hn, mul_comm]; exact hr

theorem fed_moment2_ (xs : List ℚ) (hne : xs ≠ []) (h : xs.length < SIZE_MODULUS) :
    (add_to_accumulator StatisticsAccumulator.empty xs).moment2_ =
      central_sum 2 (xs.sum / (xs.length : ℚ)) xs := by
  have hr := fed_raw2 xs h
  have hc := fed_count_ xs h
  have hm := fed_moment1_ xs hne h
  have hn : ((xs.length : ℕ) : ℚ) ≠ 0 := by
    exact_mod_cast fun h0 => hne (List.length_eq_zero.mp h0)
  rw [raw2, hc, hm] at hr
  rw [central_sum_two]
  have : power_sum 2 xs =
      (add_to_accumulator StatisticsAccumulator.empty xs).moment2_ +
        (xs.length : ℚ) * (xs.sum / (xs.length : ℚ)) ^ 2 := hr.symm
  rw [this]
  field_simp
  ring

theorem test_equivalence_of_eq {a b : StatisticsAccumulator} (h : a = b) :
    test_equivalence a b := by
  subst h
  exact ⟨rfl, rfl, rfl, rfl, rfl, rfl, rfl, rfl, rfl⟩

theorem central_sum_three (m : ℚ) (xs : List ℚ) :
    central_sum 3 m xs = power_sum 3 xs - 3 * m * power_sum 2 xs + 3 * m ^ 2 * xs.sum -
      (xs.length : ℚ) * m ^ 3 := by
  induction xs with
  | nil => simp [central_sum, power_sum]
  | cons x xs ih =>
    simp only [central_sum, power_sum, List.map_cons, List.sum_cons, List.length_cons,
      Nat.cast_add, Nat.cast_one] at ih ⊢
    rw [ih]; ring

theorem central_sum_four (m : ℚ) (xs : List ℚ) :
    central_sum 4 m xs = power_sum 4 xs - 4 * m * power_sum 3 xs + 6 * m ^ 2 * power_sum 2 xs -
      4 * m ^ 3 * xs.sum + (xs.length : ℚ) * m ^ 4 := by
  induction xs with
  | nil => simp [central_sum, power_sum]
  | cons x xs ih =>
    simp only [central_sum, power_sum, List.map_cons, List.sum_cons, List.length_cons,
      Nat.cast_add, Nat.cast_one] at ih ⊢
    rw [ih]; ring

theorem cast_length_ne_zero (xs : List ℚ) (hne : xs ≠ []) : ((xs.length : ℕ) : ℚ) ≠ 0 := by
  exact_mod_cast fun h0 => hne (List.length_eq_zero.mp h0)

theorem sum_eq_length_mul_mean (xs : List ℚ) (hne : xs ≠ []) :
    xs.sum = (xs.length : ℚ) * (xs.sum / (xs.length : ℚ)) := by
  have hn := cast_length_ne_zero xs hne
  field_simp

theorem fed_moment3_ (xs : List ℚ) (hne : xs ≠ []) (h : xs.length < SIZE_MODULUS) :
    (add_to_accumulator StatisticsAccumulator.empty xs).moment3_ =
      central_sum 3 (xs.sum / (xs.length : ℚ)) xs := by
  have h3 := fed_raw3 xs h
  have h2 := fed_raw2 xs h
  have hc := fed_count_ xs h
  have hm := fed_moment1_ xs hne h
  have hs := sum_eq_length_mul_mean xs hne
  rw [raw3, hc, hm] at h3
  rw [raw2, hc, hm] at h2
  rw [central_sum_three, ← h3, ← h2]
  generalize xs.sum / (xs.length : ℚ) = m at hs ⊢
  rw [hs]; ring

theorem fed_moment4_ (xs : List ℚ) (hne : xs ≠ []) (h : xs.length < SIZE_MODULUS) :
    (add_to_accumulator StatisticsAccumulator.empty xs).moment4_ =
      central_sum 4 (xs.sum / (xs.length : ℚ)) xs := by
  have h4 := fed_raw4 xs h
  have h3 := fed_raw3 xs h
  have h2 := fed_raw2 xs h
  have hc := fed_count_ xs h
  have hm := fed_moment1_ xs hne h
  have hs := sum_eq_length_mul_mean xs hne
  rw [raw4, hc, hm] at h4
  rw [raw3, hc, hm] at h3
  rw [raw2, hc, hm] at h2
  rw [central_sum_four, ← h4, ← h3, ← h2]
  generalize xs.sum / (xs.length : ℚ) = m at hs ⊢
  rw [hs]; ring

theorem central_sum_two_nonneg (m : ℚ) (xs : List ℚ) : 0 ≤ central_sum 2 m xs := by
  induction xs with
  | nil => simp [central_sum]
  | cons x xs ih =>
    simp only [central_sum, List.map_cons, List.sum_cons] at ih ⊢
    have := sq_nonneg (x - m)
    linarith

theorem central_sum_two_eq_zero (m : ℚ) (xs : List ℚ) :
    central_sum 2 m xs = 0 ↔ ∀ x ∈ xs, x = m := by
  induction xs with
  | nil => simp [central_sum]
  | cons x xs ih =>
    have h1 := sq_nonneg (x - m)
    have h2 := central_sum_two_nonneg m xs
    have hcons : central_sum 2 m (x :: xs) = (x - m) ^ 2 + central_sum 2 m xs := by
      simp [central_sum]
    rw [hcons]
    constructor
    · intro h y hy
      have e1 : (x - m) ^ 2 = 0 := by linarith
      have e2 : central_sum 2 m xs = 0 := by linarith
      rcases List.mem_cons.mp hy with rfl | hy
      · have := pow_eq_zero_iff (two_ne_zero) |>.mp e1
        linarith
      · exact ih.mp e2 y hy
    · intro h
      have e1 : x = m := h x (List.mem_cons_self _ _)
      have e2 : central_sum 2 m xs = 0 :=
        ih.mpr (fun y hy => h y (List.mem_cons_of_mem _ hy))
      rw [e1, e2]; ring

theorem sum_of_all_eq (v : ℚ) (xs : List ℚ) (h : ∀ x ∈ xs, x = v) :
    xs.sum = (xs.length : ℚ) * v := by
  induction xs with
  | nil => simp
  | cons x xs ih =>
    have e1 : x = v := h x (List.mem_cons_self _ _)
    have e2 := ih (fun y hy => h y (List.mem_cons_of_mem _ hy))
    simp only [List.sum_cons, List.length_cons, Nat.cast_add, Nat.cast_one]
    rw [e1, e2]; ring

/-- The centred sum of squares about the mean vanishes exactly when all values are equal. -/
theorem central_sum_two_mean_eq_zero (xs : List ℚ) (hne : xs ≠ []) :
    central_sum 2 (xs.sum / (xs.length : ℚ)) xs = 0 ↔ ∀ x ∈ xs, ∀ y ∈ xs, x = y := by
  rw [central_sum_two_eq_zero]
  have hn := cast_length_ne_zero xs hne
  constructor
  · intro h x hx y hy
    rw [h x hx, h y hy]
  · intro h x hx
    have hs := sum_of_all_eq x xs (fun y hy => h y hy x hx)
    rw [hs]; field_simp

theorem fed_moment2_eq_zero (xs : List ℚ) (hne : xs ≠ []) (h : xs.length < SIZE_MODULUS) :
    (add_to_accumulator StatisticsAccumulator.empty xs).moment2_ = 0 ↔
      ∀ x ∈ xs, ∀ y ∈ xs, x = y := by
  rw [fed_moment2_ xs hne h, central_sum_two_mean_eq_zero xs hne]

theorem running_min_le_of_mem (xs : List ℚ) : ∀ m : ℚ, ∀ x ∈ xs, running_min m xs ≤ x := by
  induction xs with
  | nil => intro m x hx; exact absurd hx (List.not_mem_nil x)
  | cons y ys ih =>
    intro m x hx
    have hstep : running_min m (y :: ys) = running_min (min y m) ys := rfl
    rw [hstep]
    rcases List.mem_cons.mp hx with rfl | hx
    · exact (running_min_le ys _).trans (min_le_left _ _)
    · exact ih _ x hx

theorem le_running_max_of_mem (xs : List ℚ) : ∀ m : ℚ, ∀ x ∈ xs, x ≤ running_max m xs := by
  induction xs with
  | nil => intro m x hx; exact absurd hx (List.not_mem_nil x)
  | cons y ys ih =>
    intro m x hx
    have hstep : running_max m (y :: ys) = running_max (max y m) ys := rfl
    rw [hstep]
    rcases List.mem_cons.mp hx with rfl | hx
    · exact (le_max_left _ _).trans (le_running_max ys _)
    · exact ih _ x hx

theorem running_min_eq_or_mem (xs : List ℚ) : ∀ m : ℚ,
    running_min m xs = m ∨ running_min m xs ∈ xs := by
  induction xs with
  | nil => intro m; exact Or.inl rfl
  | cons y ys ih =>
    intro m
    have hstep : running_min m (y :: ys) = running_min (min y m) ys := rfl
    rw [hstep]
    rcases ih (min y m) with h | h
    · rcases min_choice y m with hy | hm
      · right; rw [h, hy]; exact List.mem_cons_self _ _
      · left; rw [h, hm]
    · right; exact List.mem_cons_of_mem _ h

theorem running_max_eq_or_mem (xs : List ℚ) : ∀ m : ℚ,
    running_max m xs = m ∨ running_max m xs ∈ xs := by
  induction xs with
  | nil => intro m; exact Or.inl rfl
  | cons y ys ih =>
    intro m
    have hstep : running_max m (y :: ys) = running_max (max y m) ys := rfl
    rw [hstep]
    rcases ih (max y m) with h | h
    · rcases max_choice y m with hy | hm
      · right; rw [h, hy]; exact List.mem_cons_self _ _
      · left; rw [h, hm]
    · right; exact List.mem_cons_of_mem _ h

/-- Started at a bound no value exceeds, the running minimum of a non-empty list is one of
its values. -/
theorem running_min_mem (xs : List ℚ) (m : ℚ) (hne : xs ≠ []) (hm : ∀ x ∈ xs, x ≤ m) :
    running_min m xs ∈ xs := by
  rcases running_min_eq_or_mem xs m with h | h
  · obtain ⟨x, hx⟩ := List.exists_mem_of_ne_nil xs hne
    have h1 : running_min m xs ≤ x := running_min_le_of_mem xs m x hx
    have h2 : x = m := le_antisymm (hm x hx) (h ▸ h1)
    rw [h, ← h2]; exact hx
  · exact h

theorem running_max_mem (xs : List ℚ) (m : ℚ) (hne : xs ≠ []) (hm : ∀ x ∈ xs, m ≤ x) :
    running_max m xs ∈ xs := by
  rcases running_max_eq_or_mem xs m with h | h
  · obtain ⟨x, hx⟩ := List.exists_mem_of_ne_nil xs hne
    have h1 : x ≤ running_max m xs := le_running_max_of_mem xs m x hx
    have h2 : x = m := le_antisymm (h ▸ h1) (hm x hx)
    rw [h, ← h2]; exact hx
  · exact h

theorem neg_FLT_MAX_le : -FLT_MAX ≤ FLT_MAX := by
  norm_num [FLT_MAX]

theorem replicate_ne_nil (N : Nat) (v : ℚ) (hN : 1 ≤ N) : List.replicate N v ≠ [] := by
  intro h
  have := congrArg List.length h
  simp at this
  omega

theorem fed_only_min (v : ℚ) :
    (add_to_accumulator StatisticsAccumulator.empty [v]).minimum = some (min v FLT_MAX) := by
  simp [add_to_accumulator, StatisticsAccumulator.add, StatisticsAccumulator.empty,
    StatisticsAccumulator.minimum, SIZE_MODULUS]

theorem fed_only_max (v : ℚ) :
    (add_to_accumulator StatisticsAccumulator.empty [v]).maximum = some (max v (-FLT_MAX)) := by
  simp [add_to_accumulator, StatisticsAccumulator.add, StatisticsAccumulator.empty,
    StatisticsAccumulator.maximum, SIZE_MODULUS]

/-- The state after `add(1); add(2); add(3)`. -/
theorem fed_one_two_three :
    add_to_accumulator StatisticsAccumulator.empty [1, 2, 3] =
      { count_ := 3, minimum_ := 1, maximum_ := 3, moment1_ := 2, abs_moment1_ := 2,
        moment2_ := 2, moment3_ := 0, moment4_ := 2 } := by
  norm_num [add_to_accumulator, StatisticsAccumulator.add, StatisticsAccumulator.empty,
    SIZE_MODULUS, FLT_MAX]

/-- The state after `add(-6); add(-2); add(-1)`. -/
theorem fed_minus_six_two_one :
    add_to_accumulator StatisticsAccumulator.empty [-6, -2, -1] =
      { count_ := 3, minimum_ := -6, maximum_ := -1, moment1_ := -3, abs_moment1_ := 3,
        moment2_ := 14, moment3_ := -18, moment4_ := 98 } := by
  norm_num [add_to_accumulator, StatisticsAccumulator.add, StatisticsAccumulator.empty,
    SIZE_MODULUS, FLT_MAX]

theorem quadratic_mean_one_two_three :
    (add_to_accumulator StatisticsAccumulator.empty [1, 2, 3]).quadratic_mean =
      some (Real.sqrt (14 / 3)) := by
  rw [fed_one_two_three]
  simp only [StatisticsAccumulator.quadratic_mean]
  norm_num

theorem standard_deviation_one_two_three :
    (add_to_accumulator StatisticsAccumulator.empty [1, 2, 3]).standard_deviation =
      some (Real.sqrt (2 / 3)) := by
  rw [fed_one_two_three]
  simp only [StatisticsAccumulator.standard_deviation]
  norm_num

theorem quadratic_mean_minus_six_two_one :
    (add_to_accumulator StatisticsAccumulator.empty [-6, -2, -1]).quadratic_mean =
      some (Real.sqrt (41 / 3)) := by
  rw [fed_minus_six_two_one]
  simp only [StatisticsAccumulator.quadratic_mean]
  norm_num

theorem standard_deviation_minus_six_two_one :
    (add_to_accumulator StatisticsAccumulator.empty [-6, -2, -1]).standard_deviation =
      some (Real.sqrt (14 / 3)) := by
  rw [fed_minus_six_two_one]
  simp only [StatisticsAccumulator.standard_deviation]
  norm_num

/-- Rounding `sqrt x` to four decimals: it is enough to square the two bounds. -/
theorem round_sqrt_eq (x : ℝ) (z : ℤ) (hz : (1 : ℝ) ≤ z)
    (hlo : (((z : ℝ) - 1 / 2) / 10000) ^ 2 ≤ x)
    (hhi : x < (((z : ℝ) + 1 / 2) / 10000) ^ 2) :
    round (Real.sqrt x * 10000) = z := by
  have h1 : ((z : ℝ) - 1 / 2) / 10000 ≤ Real.sqrt x :=
    (Real.le_sqrt' (by linarith)).mpr hlo
  have h2 : Real.sqrt x < ((z : ℝ) + 1 / 2) / 10000 :=
    (Real.sqrt_lt' (by linarith)).mpr hhi
  rw [round_eq, Int.floor_eq_iff]
  constructor
  · linarith
  · linarith

theorem round_sqrt_14_3 : round (Real.sqrt (14 / 3) * 10000) = 21602 :=
  round_sqrt_eq _ _ (by norm_num) (by norm_num) (by norm_num)

theorem round_sqrt_2_3 : round (Real.sqrt (2 / 3) * 10000) = 8165 :=
  round_sqrt_eq _ _ (by norm_num) (by norm_num) (by norm_num)

theorem round_sqrt_41_3 : round (Real.sqrt (41 / 3) * 10000) = 36968 :=
  round_sqrt_eq _ _ (by norm_num) (by norm_num) (by norm_num)

theorem all_eq_of_replicate (N : Nat) (v : ℚ) :
    ∀ x ∈ List.replicate N v, ∀ y ∈ List.replicate N v, x = y := by
  intro x hx y hy
  rw [List.eq_of_mem_replicate hx, List.eq_of_mem_replicate hy]

/-- The state after adding `v` to an empty accumulator `N` times. -/
theorem fed_replicate (N : Nat) (v : ℚ) (hN : 1 ≤ N) (hlen : N < SIZE_MODULUS)
    (hlo : -FLT_MAX ≤ v) (hhi : v ≤ FLT_MAX) :
    add_to_accumulator StatisticsAccumulator.empty (List.replicate N v) =
      { count_ := N, minimum_ := v, maximum_ := v, moment1_ := v, abs_moment1_ := |v|,
        moment2_ := 0, moment3_ := 0, moment4_ := 0 } := by
  have hne : List.replicate N v ≠ [] := replicate_ne_nil N v hN
  have hl : (List.replicate N v).length < SIZE_MODULUS := by
    rw [List.length_replicate]; exact hlen
  have hN0 : (N : ℚ) ≠ 0 := by
    have : (0 : ℚ) < N := by exact_mod_cast hN
    exact ne_of_gt this
  have hmem : ∀ x ∈ List.replicate N v, x = v := fun x hx => List.eq_of_mem_replicate hx
  have hmean : (List.replicate N v).sum / ((List.replicate N v).length : ℚ) = v := by
    rw [sum_of_all_eq v _ hmem, List.length_replicate]
    field_simp
  have hc := fed_count_ _ hl
  rw [List.length_replicate] at hc
  have h1 := fed_moment1_ _ hne hl
  rw [hmean] at h1
  have hA := fed_abs_moment1_ _ hne hl
  have habs : abs_sum (List.replicate N v) = (N : ℚ) * |v| := by
    simp [abs_sum, List.map_replicate, List.sum_replicate]
  rw [habs, List.length_replicate] at hA
  have hA' : (add_to_accumulator StatisticsAccumulator.empty (List.replicate N v)).abs_moment1_
      = |v| := by
    rw [hA]; field_simp
  have h2 := fed_moment2_ _ hne hl
  have h3 := fed_moment3_ _ hne hl
  have h4 := fed_moment4_ _ hne hl
  rw [hmean] at h2 h3 h4
  have hz : ∀ k : Nat, k ≠ 0 → central_sum k v (List.replicate N v) = 0 := by
    intro k hk
    simp [central_sum, List.map_replicate, List.sum_replicate, hk]
  rw [hz 2 (by norm_num)] at h2
  rw [hz 3 (by norm_num)] at h3
  rw [hz 4 (by norm_num)] at h4
  have hmin : (add_to_accumulator StatisticsAccumulator.empty (List.replicate N v)).minimum_
      = v := by
    rw [fold_minimum_]
    exact hmem _ (running_min_mem _ FLT_MAX hne (fun x hx => by rw [hmem x hx]; exact hhi))
  have hmax : (add_to_accumulator StatisticsAccumulator.empty (List.replicate N v)).maximum_
      = v := by
    rw [fold_maximum_]
    exact hmem _ (running_max_mem _ (-FLT_MAX) hne (fun x hx => by rw [hmem x hx]; exact hlo))
  generalize add_to_accumulator StatisticsAccumulator.empty (List.replicate N v) = s at *
  cases s
  simp only at hc h1 hA' h2 h3 h4 hmin hmax
  subst hc h1 hA' h2 h3 h4 hmin hmax
  rfl

theorem fed_append_singleton (xs : List ℚ) (x : ℚ) :
    add_to_accumulator StatisticsAccumulator.empty (xs ++ [x]) =
      (add_to_accumulator StatisticsAccumulator.empty xs).add x := by
  simp [add_to_accumulator, List.foldl_append]

/-- Every built accumulator is the accumulator fed some sequence of values. -/
theorem built_eq_fed {a : StatisticsAccumulator} (hb : Built a) :
    ∃ xs : List ℚ, xs.length < SIZE_MODULUS ∧
      a = add_to_accumulator StatisticsAccumulator.empty xs := by
  induction hb with
  | empty => exact ⟨[], by decide, rfl⟩
  | add a value _ h ih =>
    obtain ⟨xs, hx, rfl⟩ := ih
    rw [fed_count_ xs hx] at h
    exact ⟨xs ++ [value], by rw [List.length_append]; simpa using h,
      (fed_append_singleton xs value).symm⟩
  | plus a b _ _ h iha ihb =>
    obtain ⟨xs, hx, rfl⟩ := iha
    obtain ⟨ys, hy, rfl⟩ := ihb
    rw [fed_count_ xs hx, fed_count_ ys hy] at h
    exact ⟨xs ++ ys, by rw [List.length_append]; exact h, plus_fed xs ys h⟩

theorem built_fold (xs : List ℚ) : ∀ a : StatisticsAccumulator, Built a →
    a.count_ + xs.length < SIZE_MODULUS → Built (add_to_accumulator a xs) := by
  induction xs with
  | nil => intro a ha _; exact ha
  | cons x xs ih =>
    intro a ha h
    simp only [List.length_cons] at h
    have h1 : a.count_ + 1 < SIZE_MODULUS := by omega
    have hc := add_count_ a x h1
    exact ih (a.add x) (Built.add a x ha h1) (by omega)

/-- Every accumulator fed a sequence of values is built. -/
theorem built_fed (xs : List ℚ) (h : xs.length < SIZE_MODULUS) :
    Built (add_to_accumulator StatisticsAccumulator.empty xs) :=
  built_fold xs _ Built.empty (by rw [empty_count_]; omega)

/-- For a built accumulator `add` is `operator+` with the accumulator holding the value. -/
theorem built_add_eq_plus (a : StatisticsAccumulator) (x : ℚ) (ha : Built a)
    (h : a.count_ + 1 < SIZE_MODULUS) :
    a.add x = a.operator_plus (StatisticsAccumulator.empty.add x) := by
  obtain ⟨xs, hx, rfl⟩ := built_eq_fed ha
  rw [fed_count_ xs hx] at h
  have := plus_fed xs [x] (by simpa using h)
  rw [fed_append_singleton] at this
  exact this.symm

theorem length_mul_le_sum (c : ℚ) (xs : List ℚ) (h : ∀ x ∈ xs, c ≤ x) :
    (xs.length : ℚ) * c ≤ xs.sum := by
  induction xs with
  | nil => simp
  | cons x xs ih =>
    have h1 := h x (List.mem_cons_self _ _)
    have h2 := ih (fun y hy => h y (List.mem_cons_of_mem _ hy))
    simp only [List.length_cons, Nat.cast_add, Nat.cast_one, List.sum_cons]
    linarith

theorem sum_le_length_mul (c : ℚ) (xs : List ℚ) (h : ∀ x ∈ xs, x ≤ c) :
    xs.sum ≤ (xs.length : ℚ) * c := by
  induction xs with
  | nil => simp
  | cons x xs ih =>
    have h1 := h x (List.mem_cons_self _ _)
    have h2 := ih (fun y hy => h y (List.mem_cons_of_mem _ hy))
    simp only [List.length_cons, Nat.cast_add, Nat.cast_one, List.sum_cons]
    linarith

theorem abs_sum_ge (xs : List ℚ) : |xs.sum| ≤ abs_sum xs := by
  induction xs with
  | nil => simp [abs_sum]
  | cons x xs ih =>
    simp only [abs_sum, List.map_cons, List.sum_cons] at ih ⊢
    exact (abs_add x xs.sum).trans (by linarith)

theorem abs_sum_nonneg (xs : List ℚ) : 0 ≤ abs_sum xs :=
  (abs_nonneg _).trans (abs_sum_ge xs)

/-- The square of the sum of the absolute values is at most `n` times the sum of squares. -/
theorem abs_sum_sq_le (xs : List ℚ) :
    abs_sum xs ^ 2 ≤ (xs.length : ℚ) * power_sum 2 xs := by
  induction xs with
  | nil => simp [abs_sum, power_sum]
  | cons x xs ih =>
    simp only [abs_sum, power_sum, List.map_cons, List.sum_cons, List.length_cons,
      Nat.cast_add, Nat.cast_one] at ih ⊢
    -- the cross term is bounded through the sum of (|x| - |y|)^2 over the tail
    have hcross : 2 * |x| * (xs.map (fun y => |y|)).sum ≤
        (xs.length : ℚ) * x ^ 2 + (xs.map (fun y => y ^ 2)).sum := by
      clear ih
      induction xs with
      | nil => simp
      | cons y ys ihy =>
        simp only [List.map_cons, List.sum_cons, List.length_cons, Nat.cast_add, Nat.cast_one]
        have hsq : 2 * |x| * |y| ≤ x ^ 2 + y ^ 2 := by
          have := sq_nonneg (|x| - |y|)
          have hx : |x| ^ 2 = x ^ 2 := sq_abs x
          have hy : |y| ^ 2 = y ^ 2 := sq_abs y
          nlinarith
        linarith
    have hx : |x| ^ 2 = x ^ 2 := sq_abs x
    nlinarith

theorem power_sum_two_nonneg (xs : List ℚ) : 0 ≤ power_sum 2 xs := by
  apply List.sum_nonneg
  intro y hy
  obtain ⟨x, _, rfl⟩ := List.mem_map.mp hy
  exact sq_nonneg x

/-- The order of the measures of the accumulator fed a non-empty sequence. -/
theorem fed_measures_order (xs : List ℚ) (hne : xs ≠ []) (h : xs.length < SIZE_MODULUS) :
    (add_to_accumulator StatisticsAccumulator.empty xs).minimum_ ≤
        (add_to_accumulator StatisticsAccumulator.empty xs).moment1_ ∧
      (add_to_accumulator StatisticsAccumulator.empty xs).moment1_ ≤
        (add_to_accumulator StatisticsAccumulator.empty xs).maximum_ ∧
      |(add_to_accumulator StatisticsAccumulator.empty xs).moment1_| ≤
        (add_to_accumulator StatisticsAccumulator.empty xs).abs_moment1_ ∧
      (add_to_accumulator StatisticsAccumulator.empty xs).abs_moment1_ ^ 2 ≤
        (add_to_accumulator StatisticsAccumulator.empty xs).moment1_ *
            (add_to_accumulator StatisticsAccumulator.empty xs).moment1_ +
          (add_to_accumulator StatisticsAccumulator.empty xs).moment2_ /
            ((add_to_accumulator StatisticsAccumulator.empty xs).count_ : ℚ) ∧
      0 ≤ (add_to_accumulator StatisticsAccumulator.empty xs).abs_moment1_ := by
  have hn := cast_length_ne_zero xs hne
  have hpos : (0 : ℚ) < (xs.length : ℚ) :=
    lt_of_le_of_ne (Nat.cast_nonneg _) (Ne.symm hn)
  have hm := fed_moment1_ xs hne h
  have hA := fed_abs_moment1_ xs hne h
  have hr := fed_raw2 xs h
  have hc := fed_count_ xs h
  rw [raw2, hc] at hr
  refine ⟨?_, ?_, ?_, ?_, ?_⟩
  · rw [hm, fold_minimum_, le_div_iff₀ hpos, mul_comm]
    exact length_mul_le_sum _ xs (running_min_le_of_mem xs _)
  · rw [hm, fold_maximum_, div_le_iff₀ hpos, mul_comm]
    exact sum_le_length_mul _ xs (le_running_max_of_mem xs _)
  · rw [hm, hA, abs_div, abs_of_pos hpos]
    exact div_le_div_of_nonneg_right (abs_sum_ge xs) hpos.le
  · rw [hc, hA]
    have h2 : (add_to_accumulator StatisticsAccumulator.empty xs).moment1_ *
        (add_to_accumulator StatisticsAccumulator.empty xs).moment1_ +
        (add_to_accumulator StatisticsAccumulator.empty xs).moment2_ / (xs.length : ℚ) =
        power_sum 2 xs / (xs.length : ℚ) := by
      rw [← hr]; field_simp; ring
    rw [h2, div_pow, div_le_div_iff₀ (by positivity) hpos]
    have := abs_sum_sq_le xs
    have hp := power_sum_two_nonneg xs
    nlinarith
  · rw [hA]; exact div_nonneg (abs_sum_nonneg xs) hpos.le

open parallel_statistics

theorem spawn_blocks_spec (block_size : Nat) : ∀ (spawned : Nat) (l : List ℚ),
    block_size * spawned ≤ l.length →
    (spawn_blocks block_size spawned l).1.length = spawned ∧
      (∀ b ∈ (spawn_blocks block_size spawned l).1, b.length = block_size) ∧
      (spawn_blocks block_size spawned l).1.flatten ++ (spawn_blocks block_size spawned l).2 = l ∧
      (spawn_blocks block_size spawned l).2.length = l.length - block_size * spawned := by
  intro spawned
  induction spawned with
  | zero =>
    intro l _
    simp [spawn_blocks]
  | succ k ih =>
    intro l h
    have hbs : block_size ≤ l.length := by
      have : block_size * (k + 1) = block_size * k + block_size := by ring
      omega
    have hrest : block_size * k ≤ (l.drop block_size).length := by
      rw [List.length_drop]
      have : block_size * (k + 1) = block_size * k + block_size := by ring
      omega
    obtain ⟨h1, h2, h3, h4⟩ := ih (l.drop block_size) hrest
    have hstep : spawn_blocks block_size (k + 1) l =
        (l.take block_size :: (spawn_blocks block_size k (l.drop block_size)).1,
          (spawn_blocks block_size k (l.drop block_size)).2) := rfl
    rw [hstep]
    refine ⟨?_, ?_, ?_, ?_⟩
    · simp [h1]
    · intro b hb
      rcases List.mem_cons.mp hb with rfl | hb
      · rw [List.length_take]; omega
      · exact h2 b hb
    · simp only [List.flatten_cons, List.append_assoc]
      rw [h3, List.take_append_drop]
    · simp only []
      rw [h4, List.length_drop]
      have : block_size * (k + 1) = block_size * k + block_size := by ring
      omega

theorem hint_pos (hardware_concurrency : Nat) :
    1 ≤ number_of_threads_hint hardware_concurrency := by
  unfold number_of_threads_hint
  simp only []
  split_ifs with h
  · decide
  · omega

theorem threads_bounds (hardware_concurrency n : Nat) (hn : 1 ≤ n) :
    1 ≤ optimal_number_of_threads hardware_concurrency n ∧
      optimal_number_of_threads hardware_concurrency n ≤ n := by
  have hh := hint_pos hardware_concurrency
  unfold optimal_number_of_threads
  simp only []
  split_ifs with h
  · exact ⟨hn, le_refl _⟩
  · exact ⟨hh, by omega⟩

/-- Sizes of the blocks for `n ≥ 1` values and `t` threads with `1 ≤ t ≤ n`. -/
theorem block_sizes (n t : Nat) (ht : 1 ≤ t) (htn : t ≤ n) :
    1 ≤ n / t ∧ n / t * (t - 1) ≤ n ∧ 1 ≤ n - n / t * (t - 1) ∧
      n / t * (t - 1) + (n - n / t * (t - 1)) = n := by
  have h1 : 1 ≤ n / t := (Nat.one_le_div_iff (by omega)).mpr htn
  have h2 : n / t * t ≤ n := Nat.div_mul_le_self n t
  have h3 : n / t * t = n / t * (t - 1) + n / t := by
    obtain ⟨s, rfl⟩ : ∃ s, t = s + 1 := ⟨t - 1, by omega⟩
    simp [Nat.mul_succ]
  refine ⟨h1, by omega, by omega, by omega⟩

/-- The blocks of `run`: the spawned ones, all of size `n / t`, then the last one. -/
theorem blocks_spec (hardware_concurrency : Nat) (values : List ℚ) (hn : 1 ≤ values.length) :
    ∃ (spawned : List (List ℚ)) (last : List ℚ),
      blocks hardware_concurrency values = spawned ++ [last] ∧
      spawned.length = optimal_number_of_threads hardware_concurrency values.length - 1 ∧
      (∀ b ∈ spawned, b.length =
        values.length / optimal_number_of_threads hardware_concurrency values.length) ∧
      last.length = values.length -
        values.length / optimal_number_of_threads hardware_concurrency values.length *
          (optimal_number_of_threads hardware_concurrency values.length - 1) ∧
      spawned.flatten ++ last = values := by
  obtain ⟨ht, htn⟩ := threads_bounds hardware_concurrency values.length hn
  obtain ⟨_, b2, _, _⟩ := block_sizes values.length _ ht htn
  have hle : values.length / optimal_number_of_threads hardware_concurrency values.length *
      (optimal_number_of_threads hardware_concurrency values.length - 1) ≤ values.length := b2
  obtain ⟨h1, h2, h3, h4⟩ := spawn_blocks_spec _ _ values hle
  refine ⟨_, _, rfl, h1, h2, ?_, ?_⟩
  · rw [List.length_take, h4]; omega
  · rw [List.take_of_length_le (by rw [h4])]
    exact h3

theorem blocks_flatten (hardware_concurrency : Nat) (values : List ℚ)
    (hn : 1 ≤ values.length) : (blocks hardware_concurrency values).flatten = values := by
  obtain ⟨spawned, last, e, _, _, _, hf⟩ := blocks_spec hardware_concurrency values hn
  rw [e, List.flatten_append]
  simpa using hf

/-- The result of `run` is the accumulator fed all the values in one thread. -/
theorem run_eq_fed (hardware_concurrency : Nat) (values : List ℚ)
    (h : values.length < SIZE_MODULUS) :
    run hardware_concurrency values = add_to_accumulator StatisticsAccumulator.empty values := by
  unfold run
  split_ifs with h0
  · rw [List.length_eq_zero.mp h0]; rfl
  · have hn : 1 ≤ values.length := by omega
    have hf := blocks_flatten hardware_concurrency values hn
    have := foldl_plus_assign_fed (blocks hardware_concurrency values) []
      (by rw [hf]; simpa using h)
    rw [List.nil_append, hf] at this
    exact this

theorem add_divisors_ne_zero (a : StatisticsAccumulator) (value : ℚ)
    (h : a.count_ + 1 < SIZE_MODULUS) :
    ∀ d ∈ a.add_divisors value, d = ((a.add value).count_ : ℚ) ∧ d ≠ 0 := by
  have hc := add_count_ a value h
  have hne : (((a.add value).count_ : ℕ) : ℚ) ≠ 0 := by
    rw [hc]; exact_mod_cast Nat.succ_ne_zero a.count_
  intro d hd
  have hd' : d = ((a.add value).count_ : ℚ) := by
    simp only [add_divisors, List.mem_cons, List.mem_singleton, or_self, List.not_mem_nil,
      or_false] at hd
    exact hd
  exact ⟨hd', hd' ▸ hne⟩

theorem operator_plus_divisors_ne_zero (a b : StatisticsAccumulator)
    (h : a.count_ + b.count_ < SIZE_MODULUS) :
    ∀ d ∈ a.operator_plus_divisors b, d ≠ 0 := by
  intro d hd
  unfold operator_plus_divisors at hd
  split_ifs at hd with ha hb
  · exact absurd hd (List.not_mem_nil d)
  · exact absurd hd (List.not_mem_nil d)
  · have hc : ((((a.count_ + b.count_) % SIZE_MODULUS : ℕ)) : ℚ) ≠ 0 := by
      rw [Nat.mod_eq_of_lt h]
      have : a.count_ + b.count_ ≠ 0 := by omega
      exact_mod_cast this
    simp only [List.mem_cons, List.mem_singleton, List.not_mem_nil, or_false] at hd
    rcases hd with rfl | rfl | rfl | rfl | rfl | rfl | rfl | rfl <;>
      first
        | exact hc
        | exact mul_ne_zero hc hc
        | exact mul_ne_zero (mul_ne_zero hc hc) hc

theorem operator_plus_divisors_reached (a b : StatisticsAccumulator)
    (h : a.operator_plus_divisors b ≠ []) : 1 ≤ a.count_ ∧ 1 ≤ b.count_ := by
  unfold operator_plus_divisors at h
  split_ifs at h with ha hb
  · exact absurd rfl h
  · exact absurd rfl h
  · exact ⟨Nat.pos_of_ne_zero ha, Nat.pos_of_ne_zero hb⟩

theorem count_divisors_ne_zero (a : StatisticsAccumulator) :
    (∀ d ∈ a.quadratic_mean_divisors, d ≠ 0) ∧ (∀ d ∈ a.standard_deviation_divisors, d ≠ 0) := by
  constructor
  · intro d hd
    unfold quadratic_mean_divisors at hd
    split_ifs at hd with h0
    · exact absurd hd (List.not_mem_nil d)
    · rw [List.mem_singleton.mp hd]; exact_mod_cast h0
  · intro d hd
    unfold standard_deviation_divisors at hd
    split_ifs at hd with h0
    · exact absurd hd (List.not_mem_nil d)
    · rw [List.mem_singleton.mp hd]; exact_mod_cast h0

theorem kurtosis_divisors_ne_zero (a : StatisticsAccumulator) :
    ∀ d ∈ a.kurtosis_divisors, d ≠ 0 := by
  intro d hd
  unfold kurtosis_divisors at hd
  split_ifs at hd with h0 h2
  · exact absurd hd (List.not_mem_nil d)
  · exact absurd hd (List.not_mem_nil d)
  · rw [List.mem_singleton.mp hd]; exact mul_ne_zero h2 h2

theorem skewness_divisors_ne_zero (a : StatisticsAccumulator) (hm : 0 ≤ a.moment2_) :
    ∀ d ∈ a.skewness_divisors, d ≠ 0 := by
  intro d hd
  unfold skewness_divisors at hd
  split_ifs at hd with h0 h2
  · exact absurd hd (List.not_mem_nil d)
  · exact absurd hd (List.not_mem_nil d)
  · rw [List.mem_singleton.mp hd]
    have hpos : (0 : ℝ) < (a.moment2_ : ℝ) := by
      exact_mod_cast lt_of_le_of_ne hm (Ne.symm h2)
    exact ne_of_gt (Real.rpow_pos_of_pos hpos _)

theorem undefined_before_divisions (a : StatisticsAccumulator) :
    (a.count_ = 0 →
        a.quadratic_mean_divisors = [] ∧ a.quadratic_mean = none ∧
          a.standard_deviation_divisors = [] ∧ a.standard_deviation = none) ∧
      (a.count_ = 0 ∨ a.moment2_ = 0 →
        a.skewness_divisors = [] ∧ a.skewness = none ∧
          a.kurtosis_divisors = [] ∧ a.kurtosis = none) := by
  constructor
  · intro h0
    simp [quadratic_mean_divisors, StatisticsAccumulator.quadratic_mean,
      standard_deviation_divisors, StatisticsAccumulator.standard_deviation, h0]
  · intro h
    rcases h with h0 | h2
    · simp [skewness_divisors, StatisticsAccumulator.skewness, kurtosis_divisors,
        StatisticsAccumulator.kurtosis, h0]
    · simp [skewness_divisors, StatisticsAccumulator.skewness, kurtosis_divisors,
        StatisticsAccumulator.kurtosis, h2]

/-- The accumulator holding `n` times `3/2` is built, for every `n` a `size_t` can hold. -/
theorem built_constant_accumulator (n : Nat) (h1 : 1 ≤ n) (h : n < SIZE_MODULUS) :
    Built (constant_accumulator n) := by
  have hs := fed_replicate n (3 / 2) h1 h (by norm_num [FLT_MAX]) (by norm_num [FLT_MAX])
  have habs : |(3 / 2 : ℚ)| = 3 / 2 := abs_of_pos (by norm_num)
  rw [habs] at hs
  have hb := built_fed (List.replicate n (3 / 2)) (by rw [List.length_replicate]; exact h)
  rw [hs] at hb
  exact hb

theorem add_wraps :
    ((constant_accumulator (2 ^ 64 - 1)).add (3 / 2)).count_ = 0 ∧
      (0 : ℚ) ∈ (constant_accumulator (2 ^ 64 - 1)).add_divisors (3 / 2) := by
  constructor
  · simp [StatisticsAccumulator.add, constant_accumulator, SIZE_MODULUS]
  · simp [add_divisors, constant_accumulator, SIZE_MODULUS]

theorem operator_plus_wraps :
    (0 : ℚ) ∈ (constant_accumulator (2 ^ 63)).operator_plus_divisors
      (constant_accumulator (2 ^ 63)) := by
  simp [operator_plus_divisors, constant_accumulator, SIZE_MODULUS]

/-- C1: with exact arithmetic (rational fields, the count within `std::size_t`), for all
sequences `xs` and `ys`, empty or not, `operator+` of the accumulator fed `xs` and the
accumulator fed `ys` is equal, in all eight state fields, to the accumulator fed `xs`
followed by `ys`. -/
theorem operator_plus_of_fed (xs ys : List ℚ)
    (h : xs.length + ys.length < SIZE_MODULUS) :
    (add_to_accumulator StatisticsAccumulator.empty xs).operator_plus
        (add_to_accumulator StatisticsAccumulator.empty ys) =
      add_to_accumulator StatisticsAccumulator.empty (xs ++ ys) :=
  plus_fed xs ys h

theorem operator_plus_of_fed_witness :
    [(1 : ℚ), 2].length + [(3 : ℚ)].length < SIZE_MODULUS ∧
      (add_to_accumulator StatisticsAccumulator.empty [1, 2]).operator_plus
          (add_to_accumulator StatisticsAccumulator.empty [3]) =
        add_to_accumulator StatisticsAccumulator.empty ([1, 2] ++ [3]) :=
  ⟨by decide, operator_plus_of_fed [1, 2] [3] (by decide)⟩

/-- C2: with exact arithmetic, for every sequence of values and every assignment of its
elements to `subset1` or `subset2` (the loop of the test, the choice being any function of
the position), `subset1 + subset2` and `subset2 + subset1` both have the same count and the
same eight measures as `fullset`, which was fed the whole sequence. -/
theorem split_then_plus_equivalent (to_subset1 : Nat → Bool) (values : List ℚ)
    (h : values.length < SIZE_MODULUS) :
    test_equivalence (split_loop to_subset1 values).fullset
        ((split_loop to_subset1 values).subset1.operator_plus
          (split_loop to_subset1 values).subset2) ∧
      test_equivalence (split_loop to_subset1 values).fullset
        ((split_loop to_subset1 values).subset2.operator_plus
          (split_loop to_subset1 values).subset1) := by
  obtain ⟨m1, m2, e0, e1, e2, ep⟩ := split_fold to_subset1 values
    { count := 0
      fullset := StatisticsAccumulator.empty
      subset1 := StatisticsAccumulator.empty
      subset2 := StatisticsAccumulator.empty } [] [] [] rfl rfl rfl (List.Perm.refl _)
  rw [List.nil_append] at e0 ep
  have hlen : m1.length + m2.length = values.length := by
    rw [← List.length_append]; exact ep.length_eq
  have hp2 : (m2 ++ m1).Perm values := List.perm_append_comm.trans ep
  have h12 : (m1 ++ m2).length < SIZE_MODULUS := by rw [List.length_append]; omega
  have h21 : (m2 ++ m1).length < SIZE_MODULUS := by rw [List.length_append]; omega
  unfold split_loop
  rw [e0, e1, e2]
  constructor
  · apply test_equivalence_of_eq
    rw [plus_fed m1 m2 (by omega)]
    exact (fed_perm ep h12).symm
  · apply test_equivalence_of_eq
    rw [plus_fed m2 m1 (by omega)]
    exact (fed_perm hp2 h21).symm

theorem split_then_plus_equivalent_witness :
    [(6 : ℚ), 2, 1, 5, 4, 3].length < SIZE_MODULUS ∧
      test_equivalence (split_loop every_third [6, 2, 1, 5, 4, 3]).fullset
        ((split_loop every_third [6, 2, 1, 5, 4, 3]).subset1.operator_plus
          (split_loop every_third [6, 2, 1, 5, 4, 3]).subset2) ∧
      test_equivalence (split_loop every_third [6, 2, 1, 5, 4, 3]).fullset
        ((split_loop every_third [6, 2, 1, 5, 4, 3]).subset2.operator_plus
          (split_loop every_third [6, 2, 1, 5, 4, 3]).subset1) :=
  ⟨by decide, split_then_plus_equivalent every_third [6, 2, 1, 5, 4, 3] (by decide)⟩

/-- C3: `operator+` is commutative: with exact arithmetic, for all accumulators `a` and `b`
built from the empty accumulator by `add` and `operator+`, `a + b` and `b + a` are equal in
every state field. -/
theorem operator_plus_commutative (a b : StatisticsAccumulator) (ha : Built a)
    (hb : Built b) : a.operator_plus b = b.operator_plus a := by
  by_cases za : a.count_ = 0
  · by_cases zb : b.count_ = 0
    · rw [built_count_zero ha za, built_count_zero hb zb]
    · rw [plus_of_left_zero a b za, plus_of_right_zero b a zb za]
  · by_cases zb : b.count_ = 0
    · rw [plus_of_right_zero a b za zb, plus_of_left_zero b a zb]
    · exact plus_comm_of_ne_zero a b za zb

theorem operator_plus_commutative_witness :
    Built (StatisticsAccumulator.empty.add 1) ∧
      Built ((StatisticsAccumulator.empty.add 2).add 5) ∧
      (StatisticsAccumulator.empty.add 1).operator_plus
          ((StatisticsAccumulator.empty.add 2).add 5) =
        ((StatisticsAccumulator.empty.add 2).add 5).operator_plus
          (StatisticsAccumulator.empty.add 1) :=
  ⟨Built.add _ 1 Built.empty (by decide),
    Built.add _ 5 (Built.add _ 2 Built.empty (by decide)) (by decide),
    operator_plus_commutative _ _ (Built.add _ 1 Built.empty (by decide))
      (Built.add _ 5 (Built.add _ 2 Built.empty (by decide)) (by decide))⟩

/-- C4: `operator+` is associative: with exact arithmetic (the total count within
`std::size_t`), for all accumulators `a`, `b` and `c`, `(a + b) + c` and `a + (b + c)` are
equal in every state field. -/
theorem operator_plus_associative (a b c : StatisticsAccumulator)
    (h : a.count_ + b.count_ + c.count_ < SIZE_MODULUS) :
    (a.operator_plus b).operator_plus c = a.operator_plus (b.operator_plus c) :=
  plus_assoc_of_lt a b c h

theorem operator_plus_associative_witness :
    (StatisticsAccumulator.empty.add 1).count_ + (StatisticsAccumulator.empty.add 2).count_ +
          (StatisticsAccumulator.empty.add 4).count_ < SIZE_MODULUS ∧
      ((StatisticsAccumulator.empty.add 1).operator_plus
            (StatisticsAccumulator.empty.add 2)).operator_plus
          (StatisticsAccumulator.empty.add 4) =
        (StatisticsAccumulator.empty.add 1).operator_plus
          ((StatisticsAccumulator.empty.add 2).operator_plus
            (StatisticsAccumulator.empty.add 4)) :=
  ⟨by decide, operator_plus_associative _ _ _ (by decide)⟩

/-- C6: with exact arithmetic, for every list of blocks of values (blocks may be empty),
starting from an empty accumulator and applying `operator+=` with the accumulator of each
block, left to right, gives in every state field the accumulator fed the concatenation of
the blocks; and `a += b` leaves in `a` the value of `a + b`. -/
theorem plus_assign_over_blocks (blocks : List (List ℚ)) (a b : StatisticsAccumulator)
    (h : blocks.flatten.length < SIZE_MODULUS) :
    combine_results (blocks.map (add_to_accumulator StatisticsAccumulator.empty)) =
        add_to_accumulator StatisticsAccumulator.empty blocks.flatten ∧
      a.operator_plus_assign b = a.operator_plus b := by
  refine ⟨?_, rfl⟩
  have := foldl_plus_assign_fed blocks [] (by simpa using h)
  simpa [combine_results, add_to_accumulator] using this

theorem plus_assign_over_blocks_witness :
    [[(1 : ℚ), 2], [], [3]].flatten.length < SIZE_MODULUS ∧
      combine_results
          ([[(1 : ℚ), 2], [], [3]].map (add_to_accumulator StatisticsAccumulator.empty)) =
        add_to_accumulator StatisticsAccumulator.empty [[(1 : ℚ), 2], [], [3]].flatten ∧
      (StatisticsAccumulator.empty.add 1).operator_plus_assign
          (StatisticsAccumulator.empty.add 2) =
        (StatisticsAccumulator.empty.add 1).operator_plus (StatisticsAccumulator.empty.add 2) :=
  ⟨by decide, plus_assign_over_blocks [[1, 2], [], [3]] _ _ (by decide)⟩

/-- C7, as the code has it: for all accumulators `a` and `b`, empty or not, whose counts
add up within `std::size_t` (`a.count + b.count` at most `2^64 - 1`), the count of `a + b`
is `a.count + b.count`. -/
theorem operator_plus_count (a b : StatisticsAccumulator)
    (h : a.count_ + b.count_ < SIZE_MODULUS) :
    (a.operator_plus b).count = a.count + b.count :=
  plus_count_ a b h

theorem operator_plus_count_witness :
    (constant_accumulator 2000000000).count_ + (constant_accumulator 3000000000).count_ <
        SIZE_MODULUS ∧
      ((constant_accumulator 2000000000).operator_plus
          (constant_accumulator 3000000000)).count =
        (constant_accumulator 2000000000).count + (constant_accumulator 3000000000).count :=
  ⟨by decide, operator_plus_count _ _ (by decide)⟩

/-- C7 as stated fails where the sum of the counts wraps: the accumulator holding `2^63`
values is built, and added to itself it gives the count 0, not `2^63 + 2^63`. -/
theorem operator_plus_count_counterexample :
    Built (constant_accumulator (2 ^ 63)) ∧
      ((constant_accumulator (2 ^ 63)).operator_plus (constant_accumulator (2 ^ 63))).count =
        0 ∧
      (constant_accumulator (2 ^ 63)).count + (constant_accumulator (2 ^ 63)).count =
        2 ^ 64 ∧
      ((constant_accumulator (2 ^ 63)).operator_plus (constant_accumulator (2 ^ 63))).count ≠
        (constant_accumulator (2 ^ 63)).count + (constant_accumulator (2 ^ 63)).count :=
  ⟨built_constant_accumulator _ (by decide) (by decide), by decide, by decide, by decide⟩

/-- C8, as the code has it: each `add` to an accumulator whose count is below the largest
`std::size_t` increases the count by exactly 1 whatever the value, so after the `N` values
of a sequence (`N` at most `2^64 - 1`) were added one by one to an empty accumulator
`count()` is `N`. -/
theorem add_counts_values (a : StatisticsAccumulator) (value : ℚ) (values : List ℚ)
    (ha : a.count_ + 1 < SIZE_MODULUS) (hv : values.length < SIZE_MODULUS) :
    (a.add value).count = a.count + 1 ∧
      (add_to_accumulator StatisticsAccumulator.empty values).count = values.length :=
  ⟨add_count_ a value ha, fed_count_ values hv⟩

theorem add_counts_values_witness :
    (constant_accumulator 49).count_ + 1 < SIZE_MODULUS ∧
      [(7 : ℚ), 7, -2].length < SIZE_MODULUS ∧
      ((constant_accumulator 49).add (3 / 2)).count = (constant_accumulator 49).count + 1 ∧
      (add_to_accumulator StatisticsAccumulator.empty [7, 7, -2]).count =
        [(7 : ℚ), 7, -2].length :=
  ⟨by decide, by decide, add_counts_values _ _ _ (by decide) (by decide)⟩

/-- C8 as stated fails where the count wraps: the accumulator holding `2^64 - 1` values is
built, and `add` takes its count to 0, not to `2^64`. -/
theorem add_counts_values_counterexample :
    Built (constant_accumulator (2 ^ 64 - 1)) ∧
      (constant_accumulator (2 ^ 64 - 1)).count = 2 ^ 64 - 1 ∧
      ((constant_accumulator (2 ^ 64 - 1)).add 7).count = 0 ∧
      ((constant_accumulator (2 ^ 64 - 1)).add 7).count ≠
        (constant_accumulator (2 ^ 64 - 1)).count + 1 :=
  ⟨built_constant_accumulator _ (by decide) (by decide), by decide, by decide, by decide⟩

/-- C9: with exact arithmetic, after a non-empty sequence `x_1..x_n` was added to an empty
accumulator, in any order, `mean()` is `(x_1 + ... + x_n) / n` and `absolute_mean()` is
`(|x_1| + ... + |x_n|) / n`. -/
theorem mean_and_absolute_mean_of_fed (xs ys : List ℚ) (hne : xs ≠ [])
    (hlen : xs.length < SIZE_MODULUS) (hperm : ys.Perm xs) :
    (add_to_accumulator StatisticsAccumulator.empty ys).mean =
        some (xs.sum / (xs.length : ℚ)) ∧
      (add_to_accumulator StatisticsAccumulator.empty ys).absolute_mean =
        some ((xs.map (fun x => |x|)).sum / (xs.length : ℚ)) := by
  have hy : ys.length < SIZE_MODULUS := by rw [hperm.length_eq]; exact hlen
  rw [fed_perm hperm hy]
  have hc := fed_count_ne_zero xs hne hlen
  constructor
  · rw [StatisticsAccumulator.mean, if_neg hc, fed_moment1_ xs hne hlen]
  · rw [StatisticsAccumulator.absolute_mean, if_neg hc, fed_abs_moment1_ xs hne hlen]
    rfl

theorem mean_and_absolute_mean_of_fed_witness :
    [(-6 : ℚ), -2, -1] ≠ [] ∧ [(-6 : ℚ), -2, -1].length < SIZE_MODULUS ∧
      [(-2 : ℚ), -6, -1].Perm [-6, -2, -1] ∧
      (add_to_accumulator StatisticsAccumulator.empty [-2, -6, -1]).mean =
        some ([(-6 : ℚ), -2, -1].sum / ([(-6 : ℚ), -2, -1].length : ℚ)) ∧
      (add_to_accumulator StatisticsAccumulator.empty [-2, -6, -1]).absolute_mean =
        some (([(-6 : ℚ), -2, -1].map (fun x => |x|)).sum / ([(-6 : ℚ), -2, -1].length : ℚ)) :=
  ⟨List.cons_ne_nil _ _, by decide, List.Perm.swap _ _ _,
    mean_and_absolute_mean_of_fed _ _ (List.cons_ne_nil _ _) (by decide)
      (List.Perm.swap _ _ _)⟩

/-- C10: with exact arithmetic, after a non-empty sequence `x_1..x_n` with mean `m` was
added to an empty accumulator, `moment2_` is the centred sum of squares `Σ (x_i - m)^2` and
`standard_deviation()` is the population standard deviation `sqrt (Σ (x_i - m)^2 / n)`,
the divisor being `n`. -/
theorem moment2_and_standard_deviation_of_fed (xs : List ℚ) (hne : xs ≠ [])
    (hlen : xs.length < SIZE_MODULUS) :
    (add_to_accumulator StatisticsAccumulator.empty xs).moment2_ =
        (xs.map (fun x => (x - xs.sum / (xs.length : ℚ)) ^ 2)).sum ∧
      (add_to_accumulator StatisticsAccumulator.empty xs).standard_deviation =
        some (Real.sqrt
          (((xs.map (fun x => (x - xs.sum / (xs.length : ℚ)) ^ 2)).sum / (xs.length : ℚ) : ℚ) :
            ℝ)) := by
  have hc := fed_count_ne_zero xs hne hlen
  have hm := fed_moment2_ xs hne hlen
  rw [central_sum] at hm
  refine ⟨hm, ?_⟩
  rw [StatisticsAccumulator.standard_deviation, if_neg hc, hm, fed_count_ xs hlen]

theorem moment2_and_standard_deviation_of_fed_witness :
    [(-6 : ℚ), -2, -1] ≠ [] ∧ [(-6 : ℚ), -2, -1].length < SIZE_MODULUS ∧
      (add_to_accumulator StatisticsAccumulator.empty [-6, -2, -1]).moment2_ =
        ([(-6 : ℚ), -2, -1].map
          (fun x => (x - [(-6 : ℚ), -2, -1].sum / ([(-6 : ℚ), -2, -1].length : ℚ)) ^ 2)).sum ∧
      (add_to_accumulator StatisticsAccumulator.empty [-6, -2, -1]).standard_deviation =
        some (Real.sqrt
          ((([(-6 : ℚ), -2, -1].map
            (fun x => (x - [(-6 : ℚ), -2, -1].sum / ([(-6 : ℚ), -2, -1].length : ℚ)) ^ 2)).sum /
              ([(-6 : ℚ), -2, -1].length : ℚ) : ℚ) : ℝ)) :=
  ⟨List.cons_ne_nil _ _, by decide,
    moment2_and_standard_deviation_of_fed _ (List.cons_ne_nil _ _) (by decide)⟩

/-- C11: with exact arithmetic, after a non-empty sequence `x_1..x_n` with mean `m` was
added to an empty accumulator, `moment3_` is `Σ (x_i - m)^3` and `moment4_` is
`Σ (x_i - m)^4`; when the values are not all equal, `skewness()` is
`sqrt n * Σ (x_i - m)^3 / (Σ (x_i - m)^2)^1.5` and `kurtosis()` is
`n * Σ (x_i - m)^4 / (Σ (x_i - m)^2)^2 - 3`.  The last part records that `add` computes the
new `moment4_` and `moment3_` from the `moment2_`, `moment3_` and mean it had before the
call. -/
theorem third_and_fourth_moment_of_fed (xs : List ℚ) (hne : xs ≠ [])
    (hlen : xs.length < SIZE_MODULUS) :
    (add_to_accumulator StatisticsAccumulator.empty xs).moment3_ =
        central_sum 3 (xs.sum / (xs.length : ℚ)) xs ∧
      (add_to_accumulator StatisticsAccumulator.empty xs).moment4_ =
        central_sum 4 (xs.sum / (xs.length : ℚ)) xs ∧
      ((¬ ∀ x ∈ xs, ∀ y ∈ xs, x = y) →
        (add_to_accumulator StatisticsAccumulator.empty xs).skewness =
            some (Real.sqrt (xs.length : ℝ) *
                ((central_sum 3 (xs.sum / (xs.length : ℚ)) xs : ℚ) : ℝ) /
              ((central_sum 2 (xs.sum / (xs.length : ℚ)) xs : ℚ) : ℝ) ^ (1.5 : ℝ)) ∧
          (add_to_accumulator StatisticsAccumulator.empty xs).kurtosis =
            some ((xs.length : ℚ) * central_sum 4 (xs.sum / (xs.length : ℚ)) xs /
              central_sum 2 (xs.sum / (xs.length : ℚ)) xs ^ 2 - 3)) ∧
      ∀ (a : StatisticsAccumulator) (value : ℚ),
        (a.add value).moment4_ =
            a.moment4_ +
              ((value - a.moment1_) * ((value - a.moment1_) / (a.add value).count_) *
                    ((a.add value).count_ - 1) *
                  (((value - a.moment1_) / (a.add value).count_) *
                    ((value - a.moment1_) / (a.add value).count_)) *
                  ((a.add value).count_ * (a.add value).count_ - 3 * (a.add value).count_ + 3) +
                6 * (((value - a.moment1_) / (a.add value).count_) *
                    ((value - a.moment1_) / (a.add value).count_)) * a.moment2_ -
                4 * ((value - a.moment1_) / (a.add value).count_) * a.moment3_) ∧
          (a.add value).moment3_ =
            a.moment3_ +
              ((value - a.moment1_) * ((value - a.moment1_) / (a.add value).count_) *
                    ((a.add value).count_ - 1) *
                  ((value - a.moment1_) / (a.add value).count_) *
                  ((a.add value).count_ - 2) -
                3 * ((value - a.moment1_) / (a.add value).count_) * a.moment2_) := by
  have hc := fed_count_ne_zero xs hne hlen
  have h2 := fed_moment2_ xs hne hlen
  have h3 := fed_moment3_ xs hne hlen
  have h4 := fed_moment4_ xs hne hlen
  refine ⟨h3, h4, ?_, fun a value => ⟨rfl, rfl⟩⟩
  intro hdiff
  have hm2 : (add_to_accumulator StatisticsAccumulator.empty xs).moment2_ ≠ 0 :=
    fun h0 => hdiff ((fed_moment2_eq_zero xs hne hlen).mp h0)
  constructor
  · rw [StatisticsAccumulator.skewness, if_neg hc, if_neg hm2, h2, h3, fed_count_ xs hlen]
    simp only [Rat.cast_natCast]
  · rw [StatisticsAccumulator.kurtosis, if_neg hc, if_neg hm2, h2, h4, fed_count_ xs hlen, sq]

theorem third_and_fourth_moment_of_fed_witness :
    [(0 : ℚ), 1, 5] ≠ [] ∧ [(0 : ℚ), 1, 5].length < SIZE_MODULUS ∧
      (add_to_accumulator StatisticsAccumulator.empty [0, 1, 5]).moment3_ =
        central_sum 3 ([(0 : ℚ), 1, 5].sum / ([(0 : ℚ), 1, 5].length : ℚ)) [0, 1, 5] ∧
      (add_to_accumulator StatisticsAccumulator.empty [0, 1, 5]).moment4_ =
        central_sum 4 ([(0 : ℚ), 1, 5].sum / ([(0 : ℚ), 1, 5].length : ℚ)) [0, 1, 5] ∧
      (¬ ∀ x ∈ [(0 : ℚ), 1, 5], ∀ y ∈ [(0 : ℚ), 1, 5], x = y) ∧
      (add_to_accumulator StatisticsAccumulator.empty [0, 1, 5]).kurtosis =
        some (([(0 : ℚ), 1, 5].length : ℚ) *
            central_sum 4 ([(0 : ℚ), 1, 5].sum / ([(0 : ℚ), 1, 5].length : ℚ)) [0, 1, 5] /
          central_sum 2 ([(0 : ℚ), 1, 5].sum / ([(0 : ℚ), 1, 5].length : ℚ)) [0, 1, 5] ^ 2 -
            3) :=
  ⟨List.cons_ne_nil _ _, by decide,
    (third_and_fourth_moment_of_fed [0, 1, 5] (List.cons_ne_nil _ _) (by decide)).1,
    (third_and_fourth_moment_of_fed [0, 1, 5] (List.cons_ne_nil _ _) (by decide)).2.1,
    fun h => absurd (h 0 (by simp) 1 (by simp)) (by norm_num),
    ((third_and_fourth_moment_of_fed [0, 1, 5] (List.cons_ne_nil _ _) (by decide)).2.2.1
      (fun h => absurd (h 0 (by simp) 1 (by simp)) (by norm_num))).2⟩

/-- C12: with exact arithmetic, after a non-empty sequence `x_1..x_n` was added to an empty
accumulator, `quadratic_mean()` is the root mean square of the values: it is defined,
non-negative, and its square, `moment1_^2 + moment2_ / count_`, is
`(x_1^2 + ... + x_n^2) / n`. -/
theorem quadratic_mean_of_fed (xs : List ℚ) (hne : xs ≠ [])
    (hlen : xs.length < SIZE_MODULUS) :
    (∃ r : ℝ, (add_to_accumulator StatisticsAccumulator.empty xs).quadratic_mean = some r ∧
        0 ≤ r ∧
        r ^ 2 = (((xs.map (fun x => x ^ 2)).sum / (xs.length : ℚ) : ℚ) : ℝ)) ∧
      (add_to_accumulator StatisticsAccumulator.empty xs).moment1_ ^ 2 +
          (add_to_accumulator StatisticsAccumulator.empty xs).moment2_ /
            ((add_to_accumulator StatisticsAccumulator.empty xs).count_ : ℚ) =
        (xs.map (fun x => x ^ 2)).sum / (xs.length : ℚ) := by
  have hc := fed_count_ne_zero xs hne hlen
  have hn := cast_length_ne_zero xs hne
  have hr := fed_raw2 xs hlen
  rw [raw2, fed_count_ xs hlen] at hr
  have hq : (add_to_accumulator StatisticsAccumulator.empty xs).moment1_ ^ 2 +
      (add_to_accumulator StatisticsAccumulator.empty xs).moment2_ /
        ((add_to_accumulator StatisticsAccumulator.empty xs).count_ : ℚ) =
      (xs.map (fun x => x ^ 2)).sum / (xs.length : ℚ) := by
    rw [fed_count_ xs hlen]
    have : (xs.map (fun x => x ^ 2)).sum = power_sum 2 xs := rfl
    rw [this, ← hr]
    field_simp
    ring
  have hnonneg : (0 : ℚ) ≤ (xs.map (fun x => x ^ 2)).sum / (xs.length : ℚ) := by
    apply div_nonneg
    · apply List.sum_nonneg
      intro y hy
      obtain ⟨x, _, rfl⟩ := List.mem_map.mp hy
      exact sq_nonneg x
    · exact Nat.cast_nonneg _
  refine ⟨⟨Real.sqrt (((xs.map (fun x => x ^ 2)).sum / (xs.length : ℚ) : ℚ) : ℝ), ?_,
    Real.sqrt_nonneg _, Real.sq_sqrt (by exact_mod_cast hnonneg)⟩, hq⟩
  rw [StatisticsAccumulator.quadratic_mean, if_neg hc]
  simp only []
  rw [← hq, sq]

theorem quadratic_mean_of_fed_witness :
    [(6 : ℚ), 2, 1] ≠ [] ∧ [(6 : ℚ), 2, 1].length < SIZE_MODULUS ∧
      (add_to_accumulator StatisticsAccumulator.empty [6, 2, 1]).moment1_ ^ 2 +
          (add_to_accumulator StatisticsAccumulator.empty [6, 2, 1]).moment2_ /
            ((add_to_accumulator StatisticsAccumulator.empty [6, 2, 1]).count_ : ℚ) =
        ([(6 : ℚ), 2, 1].map (fun x => x ^ 2)).sum / ([(6 : ℚ), 2, 1].length : ℚ) :=
  ⟨List.cons_ne_nil _ _, by decide,
    (quadratic_mean_of_fed [6, 2, 1] (List.cons_ne_nil _ _) (by decide)).2⟩

/-- C13: for every non-empty sequence of values in `[-FLT_MAX, FLT_MAX]`, after they were
added to an empty accumulator `minimum()` is the smallest value of the sequence and
`maximum()` the largest; after adding only `-FLT_MAX`, or only `FLT_MAX`, both are that
value. -/
theorem extrema_of_fed (xs : List ℚ) (hne : xs ≠ []) (hlen : xs.length < SIZE_MODULUS)
    (hrange : ∀ x ∈ xs, -FLT_MAX ≤ x ∧ x ≤ FLT_MAX) :
    (∃ lo : ℚ, (add_to_accumulator StatisticsAccumulator.empty xs).minimum = some lo ∧
        lo ∈ xs ∧ ∀ x ∈ xs, lo ≤ x) ∧
      (∃ hi : ℚ, (add_to_accumulator StatisticsAccumulator.empty xs).maximum = some hi ∧
        hi ∈ xs ∧ ∀ x ∈ xs, x ≤ hi) ∧
      (add_to_accumulator StatisticsAccumulator.empty [-FLT_MAX]).minimum = some (-FLT_MAX) ∧
      (add_to_accumulator StatisticsAccumulator.empty [-FLT_MAX]).maximum = some (-FLT_MAX) ∧
      (add_to_accumulator StatisticsAccumulator.empty [FLT_MAX]).minimum = some FLT_MAX ∧
      (add_to_accumulator StatisticsAccumulator.empty [FLT_MAX]).maximum = some FLT_MAX := by
  have hc := fed_count_ne_zero xs hne hlen
  refine ⟨⟨running_min FLT_MAX xs, ?_, ?_, ?_⟩, ⟨running_max (-FLT_MAX) xs, ?_, ?_, ?_⟩,
    ?_, ?_, ?_, ?_⟩
  · rw [StatisticsAccumulator.minimum, if_neg hc, fold_minimum_]; rfl
  · exact running_min_mem xs FLT_MAX hne (fun x hx => (hrange x hx).2)
  · exact running_min_le_of_mem xs FLT_MAX
  · rw [StatisticsAccumulator.maximum, if_neg hc, fold_maximum_]; rfl
  · exact running_max_mem xs (-FLT_MAX) hne (fun x hx => (hrange x hx).1)
  · exact le_running_max_of_mem xs (-FLT_MAX)
  · rw [fed_only_min, min_eq_left neg_FLT_MAX_le]
  · rw [fed_only_max, max_self]
  · rw [fed_only_min, min_self]
  · rw [fed_only_max, max_eq_left neg_FLT_MAX_le]

theorem extrema_of_fed_witness :
    [(5 : ℚ), -7, 2] ≠ [] ∧ [(5 : ℚ), -7, 2].length < SIZE_MODULUS ∧
      (∀ x ∈ [(5 : ℚ), -7, 2], -FLT_MAX ≤ x ∧ x ≤ FLT_MAX) ∧
      (∃ lo : ℚ, (add_to_accumulator StatisticsAccumulator.empty [5, -7, 2]).minimum = some lo ∧
        lo ∈ [(5 : ℚ), -7, 2] ∧ ∀ x ∈ [(5 : ℚ), -7, 2], lo ≤ x) ∧
      (∃ hi : ℚ, (add_to_accumulator StatisticsAccumulator.empty [5, -7, 2]).maximum = some hi ∧
        hi ∈ [(5 : ℚ), -7, 2] ∧ ∀ x ∈ [(5 : ℚ), -7, 2], x ≤ hi) :=
  ⟨List.cons_ne_nil _ _, by decide, by norm_num [FLT_MAX],
    (extrema_of_fed [5, -7, 2] (List.cons_ne_nil _ _) (by decide) (by norm_num [FLT_MAX])).1,
    (extrema_of_fed [5, -7, 2] (List.cons_ne_nil _ _) (by decide) (by norm_num [FLT_MAX])).2.1⟩

/-- C14: a newly constructed accumulator has count 0 and all eight measures undefined, and
for every accumulator, in particular every one reachable from it by `add` and `operator+`,
the count is 0 if and only if `minimum`, `maximum`, `mean`, `absolute_mean`,
`quadratic_mean`, `standard_deviation`, `skewness` and `kurtosis` are all undefined
(`none`). -/
theorem undefined_iff_count_zero (a : StatisticsAccumulator) :
    (StatisticsAccumulator.empty.count = 0 ∧
        StatisticsAccumulator.empty.minimum = none ∧
        StatisticsAccumulator.empty.maximum = none ∧
        StatisticsAccumulator.empty.mean = none ∧
        StatisticsAccumulator.empty.absolute_mean = none ∧
        StatisticsAccumulator.empty.quadratic_mean = none ∧
        StatisticsAccumulator.empty.standard_deviation = none ∧
        StatisticsAccumulator.empty.skewness = none ∧
        StatisticsAccumulator.empty.kurtosis = none) ∧
      (a.count = 0 ↔
        a.minimum = none ∧ a.maximum = none ∧ a.mean = none ∧ a.absolute_mean = none ∧
          a.quadratic_mean = none ∧ a.standard_deviation = none ∧ a.skewness = none ∧
          a.kurtosis = none) := by
  refine ⟨⟨rfl, rfl, rfl, rfl, rfl, ?_, ?_, ?_, rfl⟩, ?_, ?_⟩
  · simp [StatisticsAccumulator.quadratic_mean, StatisticsAccumulator.empty]
  · simp [StatisticsAccumulator.standard_deviation, StatisticsAccumulator.empty]
  · simp [StatisticsAccumulator.skewness, StatisticsAccumulator.empty]
  · intro h
    have h0 : a.count_ = 0 := h
    simp [StatisticsAccumulator.minimum, StatisticsAccumulator.maximum,
      StatisticsAccumulator.mean, StatisticsAccumulator.absolute_mean,
      StatisticsAccumulator.quadratic_mean, StatisticsAccumulator.standard_deviation,
      StatisticsAccumulator.skewness, StatisticsAccumulator.kurtosis, h0]
  · intro h
    by_contra hc
    have hc' : a.count_ ≠ 0 := hc
    have := h.1
    rw [StatisticsAccumulator.minimum, if_neg hc'] at this
    exact Option.noConfusion this

/-- C15: for every value `v` (a finite `float`, between `-FLT_MAX` and `FLT_MAX`), after
`v` was added once to an empty accumulator the count is 1, `minimum`, `maximum` and `mean`
are `v`, `standard_deviation` is 0, and `skewness` and `kurtosis` are undefined. -/
theorem single_value_measures (v : ℚ) (hlo : -FLT_MAX ≤ v) (hhi : v ≤ FLT_MAX) :
    (StatisticsAccumulator.empty.add v).count = 1 ∧
      (StatisticsAccumulator.empty.add v).minimum = some v ∧
      (StatisticsAccumulator.empty.add v).maximum = some v ∧
      (StatisticsAccumulator.empty.add v).mean = some v ∧
      (StatisticsAccumulator.empty.add v).standard_deviation = some 0 ∧
      (StatisticsAccumulator.empty.add v).skewness = none ∧
      (StatisticsAccumulator.empty.add v).kurtosis = none := by
  refine ⟨rfl, ?_, ?_, ?_, ?_, ?_, ?_⟩
  · simp [StatisticsAccumulator.minimum, StatisticsAccumulator.add,
      StatisticsAccumulator.empty, SIZE_MODULUS, hhi]
  · simp [StatisticsAccumulator.maximum, StatisticsAccumulator.add,
      StatisticsAccumulator.empty, SIZE_MODULUS, hlo]
  · simp [StatisticsAccumulator.mean, StatisticsAccumulator.add,
      StatisticsAccumulator.empty, SIZE_MODULUS]
  · simp [StatisticsAccumulator.standard_deviation, StatisticsAccumulator.add,
      StatisticsAccumulator.empty, SIZE_MODULUS]
  · simp [StatisticsAccumulator.skewness, StatisticsAccumulator.add,
      StatisticsAccumulator.empty, SIZE_MODULUS]
  · simp [StatisticsAccumulator.kurtosis, StatisticsAccumulator.add,
      StatisticsAccumulator.empty, SIZE_MODULUS]

theorem single_value_measures_witness :
    -FLT_MAX ≤ (617 / 5 : ℚ) ∧ (617 / 5 : ℚ) ≤ FLT_MAX ∧
      (StatisticsAccumulator.empty.add (617 / 5)).count = 1 ∧
      (StatisticsAccumulator.empty.add (617 / 5)).minimum = some (617 / 5) ∧
      (StatisticsAccumulator.empty.add (617 / 5)).maximum = some (617 / 5) ∧
      (StatisticsAccumulator.empty.add (617 / 5)).mean = some (617 / 5) ∧
      (StatisticsAccumulator.empty.add (617 / 5)).standard_deviation = some 0 ∧
      (StatisticsAccumulator.empty.add (617 / 5)).skewness = none ∧
      (StatisticsAccumulator.empty.add (617 / 5)).kurtosis = none :=
  ⟨by norm_num [FLT_MAX], by norm_num [FLT_MAX],
    single_value_measures (617 / 5) (by norm_num [FLT_MAX]) (by norm_num [FLT_MAX])⟩

/-- C16, as the code has it: for every `N ≥ 1` and every value `v` (a finite `float`), after
`v` was added to an empty accumulator `N` times, `minimum`, `maximum` and `mean` are `v`,
`absolute_mean` and `quadratic_mean` are `|v|` (so they are `v` when `v ≥ 0`),
`standard_deviation` is 0, and `skewness` and `kurtosis` are undefined. -/
theorem constant_values (N : Nat) (v : ℚ) (hN : 1 ≤ N) (hlen : N < SIZE_MODULUS)
    (hlo : -FLT_MAX ≤ v) (hhi : v ≤ FLT_MAX) :
    (add_to_accumulator StatisticsAccumulator.empty (List.replicate N v)).minimum = some v ∧
      (add_to_accumulator StatisticsAccumulator.empty (List.replicate N v)).maximum = some v ∧
      (add_to_accumulator StatisticsAccumulator.empty (List.replicate N v)).mean = some v ∧
      (add_to_accumulator StatisticsAccumulator.empty (List.replicate N v)).absolute_mean =
        some |v| ∧
      (add_to_accumulator StatisticsAccumulator.empty (List.replicate N v)).quadratic_mean =
        some ((|v| : ℚ) : ℝ) ∧
      (add_to_accumulator StatisticsAccumulator.empty
        (List.replicate N v)).standard_deviation = some 0 ∧
      (add_to_accumulator StatisticsAccumulator.empty (List.replicate N v)).skewness = none ∧
      (add_to_accumulator StatisticsAccumulator.empty (List.replicate N v)).kurtosis = none ∧
      (0 ≤ v →
        (add_to_accumulator StatisticsAccumulator.empty (List.replicate N v)).absolute_mean =
            some v ∧
          (add_to_accumulator StatisticsAccumulator.empty (List.replicate N v)).quadratic_mean =
            some (v : ℝ)) := by
  have hN0 : N ≠ 0 := by omega
  have hq : (add_to_accumulator StatisticsAccumulator.empty
      (List.replicate N v)).quadratic_mean = some ((|v| : ℚ) : ℝ) := by
    rw [fed_replicate N v hN hlen hlo hhi]
    simp only [StatisticsAccumulator.quadratic_mean, if_neg hN0]
    rw [zero_div, add_zero, Rat.cast_mul, Real.sqrt_mul_self_eq_abs, Rat.cast_abs]
  have habs : (add_to_accumulator StatisticsAccumulator.empty
      (List.replicate N v)).absolute_mean = some |v| := by
    rw [fed_replicate N v hN hlen hlo hhi]
    simp only [StatisticsAccumulator.absolute_mean, if_neg hN0]
  refine ⟨?_, ?_, ?_, habs, hq, ?_, ?_, ?_, ?_⟩
  · rw [fed_replicate N v hN hlen hlo hhi]
    simp only [StatisticsAccumulator.minimum, if_neg hN0]
  · rw [fed_replicate N v hN hlen hlo hhi]
    simp only [StatisticsAccumulator.maximum, if_neg hN0]
  · rw [fed_replicate N v hN hlen hlo hhi]
    simp only [StatisticsAccumulator.mean, if_neg hN0]
  · rw [fed_replicate N v hN hlen hlo hhi]
    simp only [StatisticsAccumulator.standard_deviation, if_neg hN0]
    rw [zero_div, Rat.cast_zero, Real.sqrt_zero]
  · rw [fed_replicate N v hN hlen hlo hhi]
    simp only [StatisticsAccumulator.skewness, if_neg hN0, if_true]
  · rw [fed_replicate N v hN hlen hlo hhi]
    simp only [StatisticsAccumulator.kurtosis, if_neg hN0, if_true]
  · intro hv
    rw [habs, hq, abs_of_nonneg hv]
    exact ⟨rfl, rfl⟩

theorem constant_values_witness :
    1 ≤ 50 ∧ 50 < SIZE_MODULUS ∧ -FLT_MAX ≤ (469 / 2 : ℚ) ∧ (469 / 2 : ℚ) ≤ FLT_MAX ∧
      (add_to_accumulator StatisticsAccumulator.empty (List.replicate 50 (469 / 2))).mean =
        some (469 / 2) ∧
      (add_to_accumulator StatisticsAccumulator.empty
        (List.replicate 50 (469 / 2))).absolute_mean = some |(469 / 2 : ℚ)| :=
  ⟨by decide, by decide, by norm_num [FLT_MAX], by norm_num [FLT_MAX],
    (constant_values 50 (469 / 2) (by decide) (by decide) (by norm_num [FLT_MAX])
      (by norm_num [FLT_MAX])).2.2.1,
    (constant_values 50 (469 / 2) (by decide) (by decide) (by norm_num [FLT_MAX])
      (by norm_num [FLT_MAX])).2.2.2.1⟩

/-- C16 as stated fails for a negative value: after adding `-2` three times the claim would
make `absolute_mean` and `quadratic_mean` equal to `-2`; the code returns `2`. -/
theorem constant_values_counterexample :
    ¬ ((add_to_accumulator StatisticsAccumulator.empty (List.replicate 3 (-2))).minimum =
          some (-2) ∧
        (add_to_accumulator StatisticsAccumulator.empty (List.replicate 3 (-2))).maximum =
          some (-2) ∧
        (add_to_accumulator StatisticsAccumulator.empty (List.replicate 3 (-2))).mean =
          some (-2) ∧
        (add_to_accumulator StatisticsAccumulator.empty (List.replicate 3 (-2))).absolute_mean =
          some (-2) ∧
        (add_to_accumulator StatisticsAccumulator.empty (List.replicate 3 (-2))).quadratic_mean =
          some (-2) ∧
        (add_to_accumulator StatisticsAccumulator.empty
          (List.replicate 3 (-2))).standard_deviation = some 0 ∧
        (add_to_accumulator StatisticsAccumulator.empty (List.replicate 3 (-2))).skewness =
          none ∧
        (add_to_accumulator StatisticsAccumulator.empty (List.replicate 3 (-2))).kurtosis =
          none) ∧
      (add_to_accumulator StatisticsAccumulator.empty (List.replicate 3 (-2))).absolute_mean =
        some 2 ∧
      (add_to_accumulator StatisticsAccumulator.empty (List.replicate 3 (-2))).quadratic_mean =
        some 2 := by
  have hs : add_to_accumulator StatisticsAccumulator.empty (List.replicate 3 (-2)) =
      { count_ := 3, minimum_ := -2, maximum_ := -2, moment1_ := -2, abs_moment1_ := 2,
        moment2_ := 0, moment3_ := 0, moment4_ := 0 } := by
    norm_num [add_to_accumulator, StatisticsAccumulator.add, StatisticsAccumulator.empty,
      SIZE_MODULUS, FLT_MAX, List.replicate]
  have ha : (add_to_accumulator StatisticsAccumulator.empty
      (List.replicate 3 (-2))).absolute_mean = some 2 := by
    rw [hs]; rfl
  have hq : (add_to_accumulator StatisticsAccumulator.empty
      (List.replicate 3 (-2))).quadratic_mean = some 2 := by
    rw [hs]
    simp only [StatisticsAccumulator.quadratic_mean]
    norm_num
    rw [show (4 : ℝ) = 2 ^ 2 by norm_num]
    exact Real.sqrt_sq (by norm_num)
  refine ⟨?_, ha, hq⟩
  intro h
  have h4 := h.2.2.2.1
  rw [ha] at h4
  have := Option.some.inj h4
  norm_num at this

/-- C17: with exact arithmetic, after a non-empty sequence of values was added to an empty
accumulator, `skewness()` is undefined if and only if all the values are identical, which
is `moment2_ = 0`, and `kurtosis()` is undefined under exactly the same condition, for any
count; when the values are not all identical both are defined. -/
theorem skewness_kurtosis_undefined_iff (xs : List ℚ) (hne : xs ≠ [])
    (hlen : xs.length < SIZE_MODULUS) :
    ((add_to_accumulator StatisticsAccumulator.empty xs).skewness = none ↔
        ∀ x ∈ xs, ∀ y ∈ xs, x = y) ∧
      ((add_to_accumulator StatisticsAccumulator.empty xs).kurtosis = none ↔
        ∀ x ∈ xs, ∀ y ∈ xs, x = y) ∧
      ((add_to_accumulator StatisticsAccumulator.empty xs).moment2_ = 0 ↔
        ∀ x ∈ xs, ∀ y ∈ xs, x = y) ∧
      ((¬ ∀ x ∈ xs, ∀ y ∈ xs, x = y) →
        (add_to_accumulator StatisticsAccumulator.empty xs).skewness ≠ none ∧
          (add_to_accumulator StatisticsAccumulator.empty xs).kurtosis ≠ none) := by
  have hc := fed_count_ne_zero xs hne hlen
  have hz := fed_moment2_eq_zero xs hne hlen
  have hs : (add_to_accumulator StatisticsAccumulator.empty xs).skewness = none ↔
      (add_to_accumulator StatisticsAccumulator.empty xs).moment2_ = 0 := by
    rw [StatisticsAccumulator.skewness, if_neg hc]
    by_cases h0 : (add_to_accumulator StatisticsAccumulator.empty xs).moment2_ = 0
    · simp [h0]
    · simp [h0]
  have hk : (add_to_accumulator StatisticsAccumulator.empty xs).kurtosis = none ↔
      (add_to_accumulator StatisticsAccumulator.empty xs).moment2_ = 0 := by
    rw [StatisticsAccumulator.kurtosis, if_neg hc]
    by_cases h0 : (add_to_accumulator StatisticsAccumulator.empty xs).moment2_ = 0
    · simp [h0]
    · simp [h0]
  refine ⟨hs.trans hz, hk.trans hz, hz, fun hd => ⟨?_, ?_⟩⟩
  · exact fun h => hd ((hs.trans hz).mp h)
  · exact fun h => hd ((hk.trans hz).mp h)

theorem skewness_kurtosis_undefined_iff_witness :
    [(3 : ℚ), 3, 3] ≠ [] ∧ [(3 : ℚ), 3, 3].length < SIZE_MODULUS ∧
      ((add_to_accumulator StatisticsAccumulator.empty [3, 3, 3]).skewness = none ↔
        ∀ x ∈ [(3 : ℚ), 3, 3], ∀ y ∈ [(3 : ℚ), 3, 3], x = y) ∧
      ((add_to_accumulator StatisticsAccumulator.empty [3, 3, 3]).kurtosis = none ↔
        ∀ x ∈ [(3 : ℚ), 3, 3], ∀ y ∈ [(3 : ℚ), 3, 3], x = y) :=
  ⟨List.cons_ne_nil _ _, by decide,
    (skewness_kurtosis_undefined_iff [3, 3, 3] (List.cons_ne_nil _ _) (by decide)).1,
    (skewness_kurtosis_undefined_iff [3, 3, 3] (List.cons_ne_nil _ _) (by decide)).2.1⟩

/-- C18: with exact arithmetic, adding 1, 2, 3 in that order to an empty accumulator gives
count 3, minimum 1, maximum 3, mean 2, absolute mean 2, quadratic mean `sqrt (14/3)`, which
is 2.1602 to four decimals, standard deviation `sqrt (2/3)`, which is 0.8165 to four
decimals, skewness 0 and kurtosis -1.5. -/
theorem hello_statistics_measures :
    (add_to_accumulator StatisticsAccumulator.empty [1, 2, 3]).count = 3 ∧
      (add_to_accumulator StatisticsAccumulator.empty [1, 2, 3]).minimum = some 1 ∧
      (add_to_accumulator StatisticsAccumulator.empty [1, 2, 3]).maximum = some 3 ∧
      (add_to_accumulator StatisticsAccumulator.empty [1, 2, 3]).mean = some 2 ∧
      (add_to_accumulator StatisticsAccumulator.empty [1, 2, 3]).absolute_mean = some 2 ∧
      (add_to_accumulator StatisticsAccumulator.empty [1, 2, 3]).quadratic_mean =
        some (Real.sqrt (14 / 3)) ∧
      round (Real.sqrt (14 / 3) * 10000) = 21602 ∧
      (add_to_accumulator StatisticsAccumulator.empty [1, 2, 3]).standard_deviation =
        some (Real.sqrt (2 / 3)) ∧
      round (Real.sqrt (2 / 3) * 10000) = 8165 ∧
      (add_to_accumulator StatisticsAccumulator.empty [1, 2, 3]).skewness = some 0 ∧
      (add_to_accumulator StatisticsAccumulator.empty [1, 2, 3]).kurtosis = some (-3 / 2) := by
  refine ⟨?_, ?_, ?_, ?_, ?_, quadratic_mean_one_two_three, round_sqrt_14_3,
    standard_deviation_one_two_three, round_sqrt_2_3, ?_, ?_⟩
  · rw [fed_one_two_three]; rfl
  · rw [fed_one_two_three]; rfl
  · rw [fed_one_two_three]; rfl
  · rw [fed_one_two_three]; rfl
  · rw [fed_one_two_three]; rfl
  · rw [fed_one_two_three]
    simp [StatisticsAccumulator.skewness]
  · rw [fed_one_two_three]
    simp only [StatisticsAccumulator.kurtosis]
    norm_num

/-- C19: with exact arithmetic, adding -6, -2, -1 in that order to an empty accumulator
gives count 3, minimum -6, maximum -1, mean -3, absolute mean 3, quadratic mean
`sqrt ((36 + 4 + 1) / 3)` and standard deviation `sqrt (((-3)^2 + 1^2 + 2^2) / 3)`. -/
theorem negative_values_measures :
    (add_to_accumulator StatisticsAccumulator.empty [-6, -2, -1]).count = 3 ∧
      (add_to_accumulator StatisticsAccumulator.empty [-6, -2, -1]).minimum = some (-6) ∧
      (add_to_accumulator StatisticsAccumulator.empty [-6, -2, -1]).maximum = some (-1) ∧
      (add_to_accumulator StatisticsAccumulator.empty [-6, -2, -1]).mean = some (-3) ∧
      (add_to_accumulator StatisticsAccumulator.empty [-6, -2, -1]).absolute_mean = some 3 ∧
      (add_to_accumulator StatisticsAccumulator.empty [-6, -2, -1]).quadratic_mean =
        some (Real.sqrt ((36 + 4 + 1) / 3)) ∧
      (add_to_accumulator StatisticsAccumulator.empty [-6, -2, -1]).standard_deviation =
        some (Real.sqrt (((-3) ^ 2 + 1 ^ 2 + 2 ^ 2) / 3)) := by
  refine ⟨?_, ?_, ?_, ?_, ?_, ?_, ?_⟩
  · rw [fed_minus_six_two_one]; rfl
  · rw [fed_minus_six_two_one]; rfl
  · rw [fed_minus_six_two_one]; rfl
  · rw [fed_minus_six_two_one]; rfl
  · rw [fed_minus_six_two_one]; rfl
  · rw [quadratic_mean_minus_six_two_one]; norm_num
  · rw [standard_deviation_minus_six_two_one]; norm_num

/-- C20, as the code has it: for the values -6, -2, -1 added to an empty accumulator (exact
arithmetic), the quadratic mean `sqrt (41/3)` is 3.6968 when rounded to four decimal places
and the standard deviation `sqrt (14/3)` is 2.1602 when rounded to four decimal places. -/
theorem negative_values_rounded :
    (add_to_accumulator StatisticsAccumulator.empty [-6, -2, -1]).quadratic_mean.map
        (fun q => round (q * 10000)) = some 36968 ∧
      (add_to_accumulator StatisticsAccumulator.empty [-6, -2, -1]).standard_deviation.map
        (fun s => round (s * 10000)) = some 21602 := by
  rw [quadratic_mean_minus_six_two_one, standard_deviation_minus_six_two_one]
  simp only [Option.map_some']
  rw [round_sqrt_41_3, round_sqrt_14_3]
  exact ⟨rfl, rfl⟩

/-- C20 as stated fails: rounded to four decimal places the quadratic mean is not 3.6056 and
the standard deviation is not 2.0817. -/
theorem negative_values_rounded_counterexample :
    (add_to_accumulator StatisticsAccumulator.empty [-6, -2, -1]).quadratic_mean.map
        (fun q => round (q * 10000)) ≠ some 36056 ∧
      (add_to_accumulator StatisticsAccumulator.empty [-6, -2, -1]).standard_deviation.map
        (fun s => round (s * 10000)) ≠ some 20817 := by
  rw [quadratic_mean_minus_six_two_one, standard_deviation_minus_six_two_one]
  simp only [Option.map_some']
  rw [round_sqrt_41_3, round_sqrt_14_3]
  constructor
  · intro h
    have := Option.some.inj h
    norm_num at this
  · intro h
    have := Option.some.inj h
    norm_num at this

/-- C21: line structure of `description(statistics)`, for every accumulator.  With count 0 it
is the count description alone; with count 1 the count description followed by exactly one
line, the `Value` line showing `minimum()`; with count at least 2 the count description
followed by the minimum, maximum, mean, absolute mean, rms and standard deviation lines in
that order, then a skewness line if and only if `skewness()` is defined, then a kurtosis
line if and only if `kurtosis()` is defined; so exactly the six lines when both are
undefined, as for constant values. -/
theorem description_structure (helpers : ReportHelpers) (statistics : StatisticsAccumulator) :
    (statistics.count = 0 →
        description helpers statistics = helpers.count_description statistics.count) ∧
      (statistics.count = 1 →
        description helpers statistics =
          helpers.count_description statistics.count ++ "\n" ++
            helpers.label_and_value Label.kValueLabel
              (statistics.minimum.map (fun x : ℚ => (x : ℝ)))) ∧
      (2 ≤ statistics.count →
        description helpers statistics =
          helpers.count_description statistics.count ++ "\n" ++
            helpers.label_and_value Label.kMinimumLabel
              (statistics.minimum.map (fun x : ℚ => (x : ℝ))) ++ "\n" ++
            helpers.label_and_value Label.kMaximumLabel
              (statistics.maximum.map (fun x : ℚ => (x : ℝ))) ++ "\n" ++
            helpers.label_and_value Label.kMeanLabel
              (statistics.mean.map (fun x : ℚ => (x : ℝ))) ++ "\n" ++
            helpers.label_and_value Label.kAbsMeanLabel
              (statistics.absolute_mean.map (fun x : ℚ => (x : ℝ))) ++ "\n" ++
            helpers.label_and_value Label.kRmsLabel statistics.quadratic_mean ++ "\n" ++
            helpers.label_and_value Label.kStdDevnLabel statistics.standard_deviation ++
            (if statistics.skewness ≠ none then
              "\n" ++ helpers.label_and_value Label.kSkewnessLabel statistics.skewness
            else "") ++
            (if statistics.kurtosis ≠ none then
              "\n" ++ helpers.label_and_value Label.kKurtosisLabel
                (statistics.kurtosis.map (fun x : ℚ => (x : ℝ)))
            else "")) ∧
      (2 ≤ statistics.count → statistics.skewness = none → statistics.kurtosis = none →
        description helpers statistics =
          helpers.count_description statistics.count ++ "\n" ++
            helpers.label_and_value Label.kMinimumLabel
              (statistics.minimum.map (fun x : ℚ => (x : ℝ))) ++ "\n" ++
            helpers.label_and_value Label.kMaximumLabel
              (statistics.maximum.map (fun x : ℚ => (x : ℝ))) ++ "\n" ++
            helpers.label_and_value Label.kMeanLabel
              (statistics.mean.map (fun x : ℚ => (x : ℝ))) ++ "\n" ++
            helpers.label_and_value Label.kAbsMeanLabel
              (statistics.absolute_mean.map (fun x : ℚ => (x : ℝ))) ++ "\n" ++
            helpers.label_and_value Label.kRmsLabel statistics.quadratic_mean ++ "\n" ++
            helpers.label_and_value Label.kStdDevnLabel statistics.standard_deviation) := by
  refine ⟨?_, ?_, ?_, ?_⟩
  · intro h0
    simp only [description, if_pos h0]
  · intro h1
    have h0 : statistics.count ≠ 0 := by omega
    simp only [description, if_neg h0, if_pos h1]
  · intro h2
    have h0 : statistics.count ≠ 0 := by omega
    have h1 : statistics.count ≠ 1 := by omega
    simp only [description, if_neg h0, if_neg h1]
    split_ifs <;> simp only [String.append_assoc, String.append_empty]
  · intro h2 hs hk
    have h0 : statistics.count ≠ 0 := by omega
    have h1 : statistics.count ≠ 1 := by omega
    simp only [description, if_neg h0, if_neg h1, hs, hk, ne_eq, not_true_eq_false, if_false]

theorem description_structure_witness :
    (add_to_accumulator StatisticsAccumulator.empty (List.replicate 10 2)).count = 10 ∧
      (add_to_accumulator StatisticsAccumulator.empty (List.replicate 10 2)).skewness = none ∧
      (add_to_accumulator StatisticsAccumulator.empty (List.replicate 10 2)).kurtosis = none ∧
      description sample_helpers
          (add_to_accumulator StatisticsAccumulator.empty (List.replicate 10 2)) =
        sample_helpers.count_description
            (add_to_accumulator StatisticsAccumulator.empty (List.replicate 10 2)).count ++
          "\n" ++
          sample_helpers.label_and_value Label.kMinimumLabel
            ((add_to_accumulator StatisticsAccumulator.empty (List.replicate 10 2)).minimum.map
              (fun x : ℚ => (x : ℝ))) ++ "\n" ++
          sample_helpers.label_and_value Label.kMaximumLabel
            ((add_to_accumulator StatisticsAccumulator.empty (List.replicate 10 2)).maximum.map
              (fun x : ℚ => (x : ℝ))) ++ "\n" ++
          sample_helpers.label_and_value Label.kMeanLabel
            ((add_to_accumulator StatisticsAccumulator.empty (List.replicate 10 2)).mean.map
              (fun x : ℚ => (x : ℝ))) ++ "\n" ++
          sample_helpers.label_and_value Label.kAbsMeanLabel
            ((add_to_accumulator StatisticsAccumulator.empty
              (List.replicate 10 2)).absolute_mean.map (fun x : ℚ => (x : ℝ))) ++ "\n" ++
          sample_helpers.label_and_value Label.kRmsLabel
            (add_to_accumulator StatisticsAccumulator.empty
              (List.replicate 10 2)).quadratic_mean ++ "\n" ++
          sample_helpers.label_and_value Label.kStdDevnLabel
            (add_to_accumulator StatisticsAccumulator.empty
              (List.replicate 10 2)).standard_deviation := by
  have hs := fed_replicate 10 2 (by decide) (by decide) (by norm_num [FLT_MAX])
    (by norm_num [FLT_MAX])
  have hc : (add_to_accumulator StatisticsAccumulator.empty (List.replicate 10 2)).count = 10 := by
    rw [hs]; rfl
  have hsk : (add_to_accumulator StatisticsAccumulator.empty (List.replicate 10 2)).skewness =
      none := by
    rw [hs]; simp [StatisticsAccumulator.skewness]
  have hku : (add_to_accumulator StatisticsAccumulator.empty (List.replicate 10 2)).kurtosis =
      none := by
    rw [hs]; simp [StatisticsAccumulator.kurtosis]
  exact ⟨hc, hsk, hku,
    (description_structure sample_helpers _).2.2.2 (by rw [hc]; decide) hsk hku⟩

/-- C22: in `parallel_statistics::run`, for every `n ≥ 1` values and every thread hint (it
is at least 1 whatever `hardware_concurrency()` returns), the number of threads
`t = optimal_number_of_threads(n)` satisfies `1 ≤ t ≤ n`; the blocks are `t - 1` spawned
blocks, each of size `n / t ≥ 1`, then the last block, of size `n - (n / t) * (t - 1) ≥ 1`;
the sizes add up to `n` and the blocks, one after the other, are the whole input; and for
`n = 0` `run` returns an empty accumulator, with count 0. -/
theorem run_partition (hardware_concurrency : Nat) (values : List ℚ)
    (hn : 1 ≤ values.length) :
    1 ≤ number_of_threads_hint hardware_concurrency ∧
      1 ≤ optimal_number_of_threads hardware_concurrency values.length ∧
      optimal_number_of_threads hardware_concurrency values.length ≤ values.length ∧
      (∃ (spawned : List (List ℚ)) (last : List ℚ),
        blocks hardware_concurrency values = spawned ++ [last] ∧
        spawned.length = optimal_number_of_threads hardware_concurrency values.length - 1 ∧
        (∀ b ∈ spawned, b.length =
            values.length / optimal_number_of_threads hardware_concurrency values.length ∧
          1 ≤ b.length) ∧
        last.length = values.length -
          values.length / optimal_number_of_threads hardware_concurrency values.length *
            (optimal_number_of_threads hardware_concurrency values.length - 1) ∧
        1 ≤ last.length) ∧
      values.length / optimal_number_of_threads hardware_concurrency values.length *
          (optimal_number_of_threads hardware_concurrency values.length - 1) ≤ values.length ∧
      ((blocks hardware_concurrency values).map List.length).sum = values.length ∧
      (blocks hardware_concurrency values).flatten = values ∧
      run hardware_concurrency [] = StatisticsAccumulator.empty ∧
      (run hardware_concurrency []).count = 0 := by
  obtain ⟨ht, htn⟩ := threads_bounds hardware_concurrency values.length hn
  obtain ⟨b1, b2, b3, _⟩ := block_sizes values.length _ ht htn
  obtain ⟨spawned, last, e, hl, hb, hlast, _⟩ := blocks_spec hardware_concurrency values hn
  have hf := blocks_flatten hardware_concurrency values hn
  refine ⟨hint_pos hardware_concurrency, ht, htn,
    ⟨spawned, last, e, hl, fun b hbm => ⟨hb b hbm, by rw [hb b hbm]; exact b1⟩, hlast,
      by rw [hlast]; exact b3⟩, b2, ?_, hf, rfl, rfl⟩
  rw [← List.length_flatten, hf]

theorem run_partition_witness :
    1 ≤ [(1 : ℚ), 2, 3].length ∧
      optimal_number_of_threads 2 [(1 : ℚ), 2, 3].length ≤ [(1 : ℚ), 2, 3].length ∧
      (blocks 2 [(1 : ℚ), 2, 3]).flatten = [1, 2, 3] :=
  ⟨by decide, (run_partition 2 [1, 2, 3] (by decide)).2.2.1,
    (run_partition 2 [1, 2, 3] (by decide)).2.2.2.2.2.2.1⟩

/-- C23: with exact arithmetic, for every accumulator `a` (built from the empty one, its
count below the largest `size_t`) and every value `x`, `a.add(x)` leaves the same state, in
all eight fields, as `a + s`, where `s` is the accumulator holding only `x`. -/
theorem add_is_plus_single (a : StatisticsAccumulator) (x : ℚ) (ha : Built a)
    (h : a.count_ + 1 < SIZE_MODULUS) :
    a.add x = a.operator_plus (StatisticsAccumulator.empty.add x) :=
  built_add_eq_plus a x ha h

theorem add_is_plus_single_witness :
    Built ((StatisticsAccumulator.empty.add 1).add 4) ∧
      ((StatisticsAccumulator.empty.add 1).add 4).count_ + 1 < SIZE_MODULUS ∧
      ((StatisticsAccumulator.empty.add 1).add 4).add 7 =
        ((StatisticsAccumulator.empty.add 1).add 4).operator_plus
          (StatisticsAccumulator.empty.add 7) :=
  ⟨Built.add _ 4 (Built.add _ 1 Built.empty (by decide)) (by decide), by decide,
    add_is_plus_single _ 7 (Built.add _ 4 (Built.add _ 1 Built.empty (by decide)) (by decide))
      (by decide)⟩

/-- C24, as the code has it: no operation of the core divides by zero as long as the count
does not wrap.  `add` divides only by the incremented count, which is at least 1 when the
count was below the largest `size_t`; `operator+` reaches its divisions only when both
counts are at least 1, and its divisors, the powers of the count `na + nb`, are not zero
when `na + nb` is a `size_t` value; `quadratic_mean`, `standard_deviation`, `skewness` and
`kurtosis` divide by the count only after the count = 0 check has returned undefined; and
`skewness` and `kurtosis` divide by a power of `moment2_` only after the `moment2_ = 0`
check has returned undefined. -/
theorem no_division_by_zero (a b : StatisticsAccumulator) (value : ℚ)
    (ha : a.count_ + 1 < SIZE_MODULUS) (hab : a.count_ + b.count_ < SIZE_MODULUS) :
    (∀ d ∈ a.add_divisors value, d = ((a.add value).count_ : ℚ) ∧ d ≠ 0) ∧
      1 ≤ (a.add value).count_ ∧
      (∀ d ∈ a.operator_plus_divisors b, d ≠ 0) ∧
      (a.operator_plus_divisors b ≠ [] → 1 ≤ a.count_ ∧ 1 ≤ b.count_) ∧
      (∀ d ∈ a.quadratic_mean_divisors, d ≠ 0) ∧
      (∀ d ∈ a.standard_deviation_divisors, d ≠ 0) ∧
      (∀ d ∈ a.kurtosis_divisors, d ≠ 0) ∧
      (0 ≤ a.moment2_ → ∀ d ∈ a.skewness_divisors, d ≠ 0) ∧
      (a.count_ = 0 →
        a.quadratic_mean_divisors = [] ∧ a.quadratic_mean = none ∧
          a.standard_deviation_divisors = [] ∧ a.standard_deviation = none) ∧
      (a.count_ = 0 ∨ a.moment2_ = 0 →
        a.skewness_divisors = [] ∧ a.skewness = none ∧
          a.kurtosis_divisors = [] ∧ a.kurtosis = none) := by
  refine ⟨add_divisors_ne_zero a value ha, ?_, operator_plus_divisors_ne_zero a b hab,
    operator_plus_divisors_reached a b, (count_divisors_ne_zero a).1,
    (count_divisors_ne_zero a).2, kurtosis_divisors_ne_zero a,
    skewness_divisors_ne_zero a, (undefined_before_divisions a).1,
    (undefined_before_divisions a).2⟩
  rw [add_count_ a value ha]; omega

theorem no_division_by_zero_witness :
    (constant_accumulator 2000000000).count_ + 1 < SIZE_MODULUS ∧
      (constant_accumulator 2000000000).count_ + (constant_accumulator 3000000000).count_ <
        SIZE_MODULUS ∧
      (∀ d ∈ (constant_accumulator 2000000000).add_divisors (3 / 2),
        d = ((((constant_accumulator 2000000000).add (3 / 2)).count_ : ℕ) : ℚ) ∧ d ≠ 0) ∧
      (∀ d ∈ (constant_accumulator 2000000000).operator_plus_divisors
        (constant_accumulator 3000000000), d ≠ 0) :=
  ⟨by decide, by decide,
    (no_division_by_zero (constant_accumulator 2000000000) (constant_accumulator 3000000000)
      (3 / 2) (by decide) (by decide)).1,
    (no_division_by_zero (constant_accumulator 2000000000) (constant_accumulator 3000000000)
      (3 / 2) (by decide) (by decide)).2.2.1⟩

/-- C24 as stated fails where the count wraps.  The accumulator holding `2^64 - 1` values is
built; its `add` increments the count to 0 and divides by it.  The accumulator holding
`2^63` values is built; added to itself, `operator+` divides by the count `2^63 + 2^63`,
which is 0. -/
theorem no_division_by_zero_counterexample :
    Built (constant_accumulator (2 ^ 64 - 1)) ∧
      ((constant_accumulator (2 ^ 64 - 1)).add (3 / 2)).count_ = 0 ∧
      (0 : ℚ) ∈ (constant_accumulator (2 ^ 64 - 1)).add_divisors (3 / 2) ∧
      Built (constant_accumulator (2 ^ 63)) ∧
      1 ≤ (constant_accumulator (2 ^ 63)).count_ ∧
      (0 : ℚ) ∈ (constant_accumulator (2 ^ 63)).operator_plus_divisors
        (constant_accumulator (2 ^ 63)) :=
  ⟨built_constant_accumulator _ (by decide) (by decide), add_wraps.1, add_wraps.2,
    built_constant_accumulator _ (by decide) (by decide), by decide, operator_plus_wraps⟩

/-- C26: with exact arithmetic, for every accumulator with count at least 1 reachable from
the empty accumulator by `add` and `operator+`, the five measures are defined and
`minimum ≤ mean ≤ maximum` and `|mean| ≤ absolute_mean ≤ quadratic_mean`. -/
theorem built_measures_are_ordered (a : StatisticsAccumulator) (ha : Built a)
    (hc : 1 ≤ a.count) :
    ∃ (lo hi m am : ℚ) (q : ℝ),
      a.minimum = some lo ∧ a.maximum = some hi ∧ a.mean = some m ∧
        a.absolute_mean = some am ∧ a.quadratic_mean = some q ∧
        lo ≤ m ∧ m ≤ hi ∧ |m| ≤ am ∧ (am : ℝ) ≤ q := by
  obtain ⟨xs, hx, rfl⟩ := built_eq_fed ha
  have hc0 : (add_to_accumulator StatisticsAccumulator.empty xs).count_ ≠ 0 := by
    have : 1 ≤ (add_to_accumulator StatisticsAccumulator.empty xs).count_ := hc
    omega
  have hne : xs ≠ [] := by
    intro h
    subst h
    exact hc0 rfl
  obtain ⟨h1, h2, h3, h4, h5⟩ := fed_measures_order xs hne hx
  refine ⟨(add_to_accumulator StatisticsAccumulator.empty xs).minimum_,
    (add_to_accumulator StatisticsAccumulator.empty xs).maximum_,
    (add_to_accumulator StatisticsAccumulator.empty xs).moment1_,
    (add_to_accumulator StatisticsAccumulator.empty xs).abs_moment1_,
    Real.sqrt (((add_to_accumulator StatisticsAccumulator.empty xs).moment1_ *
        (add_to_accumulator StatisticsAccumulator.empty xs).moment1_ +
      (add_to_accumulator StatisticsAccumulator.empty xs).moment2_ /
        ((add_to_accumulator StatisticsAccumulator.empty xs).count_ : ℚ) : ℚ) : ℝ),
    ?_, ?_, ?_, ?_, ?_, h1, h2, h3, ?_⟩
  · rw [StatisticsAccumulator.minimum, if_neg hc0]
  · rw [StatisticsAccumulator.maximum, if_neg hc0]
  · rw [StatisticsAccumulator.mean, if_neg hc0]
  · rw [StatisticsAccumulator.absolute_mean, if_neg hc0]
  · rw [StatisticsAccumulator.quadratic_mean, if_neg hc0]
  · apply Real.le_sqrt_of_sq_le
    exact_mod_cast h4

theorem built_measures_are_ordered_witness :
    Built ((StatisticsAccumulator.empty.add (-6)).add 2) ∧
      1 ≤ ((StatisticsAccumulator.empty.add (-6)).add 2).count ∧
      ∃ (lo hi m am : ℚ) (q : ℝ),
        ((StatisticsAccumulator.empty.add (-6)).add 2).minimum = some lo ∧
          ((StatisticsAccumulator.empty.add (-6)).add 2).maximum = some hi ∧
          ((StatisticsAccumulator.empty.add (-6)).add 2).mean = some m ∧
          ((StatisticsAccumulator.empty.add (-6)).add 2).absolute_mean = some am ∧
          ((StatisticsAccumulator.empty.add (-6)).add 2).quadratic_mean = some q ∧
          lo ≤ m ∧ m ≤ hi ∧ |m| ≤ am ∧ (am : ℝ) ≤ q :=
  ⟨Built.add _ 2 (Built.add _ (-6) Built.empty (by decide)) (by decide), by decide,
    built_measures_are_ordered _
      (Built.add _ 2 (Built.add _ (-6) Built.empty (by decide)) (by decide)) (by decide)⟩

end stats
